import Mathlib

/-!
Verification of the Klondike draw-three solitaire engine (class
`Klondike3Engine`) and the shared `UndoManager`.  Piles are lists of
cards with the JavaScript array order kept: the END of the list is the
top of the pile (`push` appends, `pop` removes the last element).
Ranks are integers as in the source; suits are the four indices
0 = hearts, 1 = diamonds, 2 = clubs, 3 = spades, represented as `Fin 4`
because every card the engine ever creates has a suit in that range.
-/

namespace Klondike

/-- Card record: `{ suit, rank, faceUp, id }` from `createDeck`.  The id
string `card-{suit}-{rank}` is determined by suit and rank and never
changes, so it is modelled by the derived function `Card.cid`. -/
structure Card where
  suit : Fin 4
  rank : Int
  faceUp : Bool
deriving DecidableEq

/-- The stable unique identifier `card-{suit}-{rank}` of a card,
as the pair (suit, rank). -/
def Card.cid (c : Card) : Nat × Int := (c.suit.val, c.rank)

/-- Aggregate game state: `{ stock, waste, foundations[4], tableau[7],
moveCount, score }`. -/
structure GameState where
  stock : List Card
  waste : List Card
  foundations : List (List Card)
  tableau : List (List Card)
  moveCount : Nat
  score : Int
deriving DecidableEq

/-- Source location of a move, mirroring the `fromLocation` strings
`waste`, `foundation-i` and `tableau-i`. -/
inductive Loc where
  | waste : Loc
  | foundation : Nat → Loc
  | tableau : Nat → Loc
deriving DecidableEq

/-- `createDeck`: 4 suits times 13 ranks, each face-down. -/
def createDeck : List Card :=
  (List.finRange 4).flatMap fun s =>
    ((List.range 13).map fun r => { suit := s, rank := (r : Int) + 1, faceUp := false })

/-- `registerMove`: increments the move counter.  The hint invalidation
and the shell callbacks carry no game-state content beyond this. -/
def registerMove (S : GameState) : GameState :=
  { S with moveCount := S.moveCount + 1 }

/-- Suit color classes: suits 0 (hearts) and 1 (diamonds) are red. -/
def isRed (c : Card) : Bool := c.suit.val == 0 || c.suit.val == 1

/-- `canMoveToTableau(cards, colIndex)`: empty column accepts a king at
the bottom of the run; otherwise the column top must be face-up, of the
opposite color of the run's first card, and one rank above it. -/
def canMoveToTableau (S : GameState) (cards : List Card) (colIndex : Nat) : Bool :=
  match cards with
  | [] => false
  | bottomCard :: _ =>
    let column := S.tableau.getD colIndex []
    match column.getLast? with
    | none => bottomCard.rank == 13
    | some topCard =>
      topCard.faceUp &&
      (isRed topCard != isRed bottomCard) &&
      (bottomCard.rank == topCard.rank - 1)

/-- `canMoveToFoundation(card)`: returns the per-suit foundation index
(an ace on the empty foundation of its suit, or top rank + 1), or -1. -/
def canMoveToFoundation (S : GameState) (card : Card) : Int :=
  let foundation := S.foundations.getD card.suit.val []
  match foundation.getLast? with
  | none => if card.rank == 1 then (card.suit.val : Int) else -1
  | some topCard => if card.rank == topCard.rank + 1 then (card.suit.val : Int) else -1

/-- Flip the top (last) card of a tableau column face-up when it is face
down, as both move executors do after removing cards from a column. -/
def revealTop (l : List Card) : List Card :=
  match l.getLast? with
  | none => l
  | some topc =>
    if !topc.faceUp then l.dropLast ++ [{ topc with faceUp := true }] else l

/-- Reveal score bonus: +5 exactly when `revealTop` flips a card. -/
def revealBonus (l : List Card) : Int :=
  match l.getLast? with
  | none => 0
  | some topc => if !topc.faceUp then 5 else 0

/-- `moveCardToFoundation(fromLocation, foundationIndex, card)` from the
engine.  Returns the `(moved, state)` pair; on success the source calls
`captureUndoSnapshot()` once before the first mutation (modelled by
`execMoveWithUndo` below) and `registerMove` at the end. -/
def moveCardToFoundation (S : GameState) (fromLocation : Loc) (foundationIndex : Nat)
    (card : Card) : Bool × GameState :=
  if canMoveToFoundation S card != (foundationIndex : Int) then (false, S)
  else
    let S1 :=
      match fromLocation with
      | .waste =>
        if S.waste.length > 0 then { S with waste := S.waste.dropLast } else S
      | .tableau colIndex =>
        let column := S.tableau.getD colIndex []
        if column.length > 0 then
          let column1 := column.dropLast
          { S with tableau := S.tableau.set colIndex (revealTop column1),
                   score := S.score + revealBonus column1 }
        else S
      | .foundation _ => S
    let S2 := { S1 with
      foundations := S1.foundations.set foundationIndex
        ((S1.foundations.getD foundationIndex []) ++ [card]),
      score := S1.score + 10 }
    (true, registerMove S2)

/-- `moveCardsToTableau(fromLocation, toColIndex, cards)` from the
engine.  `splice(-cards.length, cards.length)` on the source column is
`take (length - cards.length)`; the waste and foundation branches only
remove (and only score) when exactly one card moves. -/
def moveCardsToTableau (S : GameState) (fromLocation : Loc) (toColIndex : Nat)
    (cards : List Card) : Bool × GameState :=
  if !canMoveToTableau S cards toColIndex then (false, S)
  else
    let S1 :=
      match fromLocation with
      | .waste =>
        if cards.length == 1 && S.waste.length > 0 then
          { S with waste := S.waste.dropLast, score := S.score + 5 }
        else S
      | .foundation foundationIndex =>
        if cards.length == 1 && (S.foundations.getD foundationIndex []).length > 0 then
          { S with foundations := S.foundations.set foundationIndex
                     (S.foundations.getD foundationIndex []).dropLast,
                   score := S.score - 15 }
        else S
      | .tableau fromColIndex =>
        let fromColumn := S.tableau.getD fromColIndex []
        let fromColumn1 := fromColumn.take (fromColumn.length - cards.length)
        { S with tableau := S.tableau.set fromColIndex (revealTop fromColumn1),
                 score := S.score + revealBonus fromColumn1 }
    let S2 := { S1 with
      tableau := S1.tableau.set toColIndex ((S1.tableau.getD toColIndex []) ++ cards) }
    (true, registerMove S2)

/-- `tryMoveFoundationToTableau(foundationIndex)`: moves the foundation
top onto the first legal tableau column (ascending index), scoring -15. -/
def tryMoveFoundationToTableau (S : GameState) (foundationIndex : Nat) : Bool × GameState :=
  let foundation := S.foundations.getD foundationIndex []
  match foundation.getLast? with
  | none => (false, S)
  | some card =>
    match (List.range 7).find? (fun col => canMoveToTableau S [card] col) with
    | none => (false, S)
    | some col =>
      let S1 := { S with
        foundations := S.foundations.set foundationIndex foundation.dropLast,
        tableau := S.tableau.set col ((S.tableau.getD col []) ++ [card]),
        score := S.score - 15 }
      (true, registerMove S1)

/-- The draw loop of `handleStockClick`: pop `n` cards off the stock
end, turning each face-up and pushing it onto the waste end. -/
def drawLoop : Nat → List Card → List Card → List Card × List Card
  | 0, stock, waste => (stock, waste)
  | n + 1, stock, waste =>
    match stock.getLast? with
    | none => (stock, waste)
    | some c => drawLoop n stock.dropLast (waste ++ [{ c with faceUp := true }])

/-- The recycle loop of `handleStockClick`: while the waste is nonempty,
pop its top, turn it face-down, and push it onto the stock. -/
def recycleLoop (stock waste : List Card) : List Card × List Card :=
  match h : waste.getLast? with
  | none => (stock, waste)
  | some c =>
    recycleLoop (stock ++ [{ c with faceUp := false }]) waste.dropLast
termination_by waste.length
decreasing_by
  have hne : waste ≠ [] := by
    intro hnil; rw [hnil] at h; simp at h
  have hpos : 0 < waste.length := List.length_pos.mpr hne
  simp only [List.length_dropLast]
  omega

/-- `handleStockClick` from the engine: draw up to three cards, else
recycle the waste, else do nothing; `registerMove` only when moved. -/
def handleStockClick (S : GameState) : GameState :=
  if S.stock.length > 0 then
    let p := drawLoop (min 3 S.stock.length) S.stock S.waste
    registerMove { S with stock := p.1, waste := p.2 }
  else if S.waste.length > 0 then
    let p := recycleLoop S.stock S.waste
    registerMove { S with stock := p.1, waste := p.2 }
  else S

/-- `maxHistory` default of the UndoManager. -/
def maxHistory : Nat := 500

/-- `UndoManager.pushSnapshot`: append a deep copy of the state (deep
copies are value copies here) and evict the oldest entries beyond the
cap.  Pushing a null state cannot arise with value semantics. -/
def pushSnapshot (history : List GameState) (snapshot : GameState) : List GameState :=
  let history1 := history ++ [snapshot]
  if history1.length > maxHistory then
    history1.drop (history1.length - maxHistory)
  else history1

/-- `UndoManager.canUndo`. -/
def canUndo (history : List GameState) : Bool := history.length > 0

/-- `Klondike3Engine.undoLastMove`: pop the most recent snapshot and
make it the authoritative game state; report whether anything was
reverted. -/
def undoLastMove (S : GameState) (history : List GameState) :
    Bool × GameState × List GameState :=
  if canUndo history then
    match history.getLast? with
    | some previousState => (true, previousState, history.dropLast)
    | none => (false, S, history)
  else (false, S, history)

/-- One inner iteration of `dealTableau`: pop `n` cards off the deck
end, pushing each onto the column being built. -/
def popPush : Nat → List Card → List Card → List Card × List Card
  | 0, deck, column => (deck, column)
  | n + 1, deck, column =>
    match deck.getLast? with
    | none => (deck, column)
    | some c => popPush n deck.dropLast (column ++ [c])

/-- Turn the last card dealt into a column face-up (`row === col` in
`dealTableau`). -/
def flipLast : List Card → List Card
  | [] => []
  | [c] => [{ c with faceUp := true }]
  | c :: rest => c :: flipLast rest

/-- `dealTableau`: column `i` receives `i+1` cards popped from the deck
end, the last of them face-up; returns the columns and the rest of the
deck. -/
def dealColumns : List Nat → List Card → List (List Card) × List Card
  | [], deck => ([], deck)
  | n :: rest, deck =>
    let p := popPush n deck []
    let q := dealColumns rest p.1
    (flipLast p.2 :: q.1, q.2)

/-- `startNewDeal` after the shuffle: fresh counters, deal the tableau,
remaining cards to the stock.  The shuffled deck is the argument. -/
def startNewDealState (deck : List Card) : GameState :=
  let d := dealColumns [1, 2, 3, 4, 5, 6, 7] deck
  { stock := d.2, waste := [], foundations := [[], [], [], []],
    tableau := d.1, moveCount := 0, score := 0 }

/-- Hint move description computed by `computeHintMove`: move type,
source, destination and the will-reveal flag, mirroring the object
literals in the source. -/
inductive HMove where
  | tabToFnd (fromCol : Nat) (cardId : Nat × Int) (fnd : Int) (willFlip : Bool) : HMove
  | tabToTab (fromCol : Nat) (cardId : Nat × Int) (toCol : Nat) (willFlip : Bool) : HMove
  | wasteToTab (cardId : Nat × Int) (toCol : Nat) : HMove
deriving DecidableEq

/-- `willTableauMoveFlip(colIndex, count)`: read-only test of whether
the card left on top after removing `count` cards is face-down. -/
def willTableauMoveFlip (S : GameState) (colIndex count : Nat) : Bool :=
  let column := S.tableau.getD colIndex []
  if column.length ≤ count then false
  else
    match column.get? (column.length - 1 - count) with
    | some newTop => !newTop.faceUp
    | none => false

/-- Per-column candidate moves of `computeHintMove`, distributed into
the three tableau-sourced priority lists (tier 1 revealing moves, tier 2
foundation moves, tier 4 other tableau moves).  For a column the
foundation candidate is pushed before the tableau candidate, and only
the first legal tableau destination (skipping the source) is kept. -/
def columnHintMoves (S : GameState) (colIndex : Nat) :
    List HMove × List HMove × List HMove :=
  let column := S.tableau.getD colIndex []
  match column.getLast? with
  | none => ([], [], [])
  | some card =>
    if !card.faceUp then ([], [], [])
    else
      let wf := willTableauMoveFlip S colIndex 1
      let fi := canMoveToFoundation S card
      let fndMoves : List HMove :=
        if fi != -1 then [.tabToFnd colIndex card.cid fi wf] else []
      let tabMoves : List HMove :=
        match (List.range S.tableau.length).find?
            (fun targetCol => targetCol != colIndex && canMoveToTableau S [card] targetCol) with
        | some targetCol => [.tabToTab colIndex card.cid targetCol wf]
        | none => []
      if wf then (fndMoves ++ tabMoves, [], [])
      else ([], fndMoves, tabMoves)

/-- Tier-3 candidate of `computeHintMove`: the waste top onto the first
legal tableau column. -/
def wasteHintMoves (S : GameState) : List HMove :=
  match S.waste.getLast? with
  | none => []
  | some topWaste =>
    match (List.range S.tableau.length).find?
        (fun colIndex => canMoveToTableau S [topWaste] colIndex) with
    | some colIndex => [.wasteToTab topWaste.cid colIndex]
    | none => []

/-- `computeHintMove`: the four priority lists are built scanning the
columns in ascending order, then the first entry of the first nonempty
list wins; with no candidates the result is `none`. -/
def computeHintMove (S : GameState) : Option HMove :=
  let cols := List.range S.tableau.length
  let priority1 := cols.flatMap fun c => (columnHintMoves S c).1
  let priority2 := cols.flatMap fun c => (columnHintMoves S c).2.1
  let priority3 := wasteHintMoves S
  let priority4 := cols.flatMap fun c => (columnHintMoves S c).2.2
  priority1.head? <|> priority2.head? <|> priority3.head? <|> priority4.head?

/-- The user-reachable move surface of the engine: stock clicks, the
waste auto-moves and drops, tableau auto-moves, draggable-stack moves
(a stack is a fully face-up suffix of a column, per `isCardDraggable`),
and foundation-sourced moves. -/
inductive EngineMove where
  | stockClick : EngineMove
  | wasteToFoundation (foundationIndex : Nat) : EngineMove
  | wasteToTableau (toCol : Nat) : EngineMove
  | tableauToFoundation (fromCol startIndex foundationIndex : Nat) : EngineMove
  | tableauToTableau (fromCol startIndex toCol : Nat) : EngineMove
  | foundationToTableau (foundationIndex : Nat) : EngineMove
  | foundationDragToTableau (foundationIndex toCol : Nat) : EngineMove
  | foundationToFoundation (fromFnd foundationIndex : Nat) : EngineMove
deriving DecidableEq

/-- Execute one engine move, returning the `moved` flag and the next
state.  Each case passes the operations exactly the arguments the
engine's handlers pass them: the top card of the waste or of a
foundation, or the dragged suffix `column.slice(startIndex)` of a
tableau column, which the drag machinery only assembles when every card
of the suffix is face-up (`isCardDraggable`). -/
def execMove (m : EngineMove) (S : GameState) : Bool × GameState :=
  match m with
  | .stockClick =>
    if S.stock.length > 0 || S.waste.length > 0 then (true, handleStockClick S)
    else (false, S)
  | .wasteToFoundation foundationIndex =>
    match S.waste.getLast? with
    | some c => moveCardToFoundation S .waste foundationIndex c
    | none => (false, S)
  | .wasteToTableau toCol =>
    match S.waste.getLast? with
    | some c => moveCardsToTableau S .waste toCol [c]
    | none => (false, S)
  | .tableauToFoundation fromCol startIndex foundationIndex =>
    let stack := (S.tableau.getD fromCol []).drop startIndex
    if stack.isEmpty || !stack.all (·.faceUp) then (false, S)
    else
      match stack.head? with
      | some c => moveCardToFoundation S (.tableau fromCol) foundationIndex c
      | none => (false, S)
  | .tableauToTableau fromCol startIndex toCol =>
    let stack := (S.tableau.getD fromCol []).drop startIndex
    if stack.isEmpty || !stack.all (·.faceUp) then (false, S)
    else moveCardsToTableau S (.tableau fromCol) toCol stack
  | .foundationToTableau foundationIndex => tryMoveFoundationToTableau S foundationIndex
  | .foundationDragToTableau foundationIndex toCol =>
    match (S.foundations.getD foundationIndex []).getLast? with
    | some c => moveCardsToTableau S (.foundation foundationIndex) toCol [c]
    | none => (false, S)
  | .foundationToFoundation fromFnd foundationIndex =>
    match (S.foundations.getD fromFnd []).getLast? with
    | some c => moveCardToFoundation S (.foundation fromFnd) foundationIndex c
    | none => (false, S)

/-- Execute a move with the Undo integration: every operation calls
`captureUndoSnapshot()` on its success path before mutating any field,
and never on a failure path, so the history gains exactly the pre-move
snapshot exactly when the move succeeds. -/
def execMoveWithUndo (m : EngineMove) (S : GameState) (history : List GameState) :
    Bool × GameState × List GameState :=
  let r := execMove m S
  (r.1, r.2, if r.1 then pushSnapshot history S else history)

/-- One engine step: some user-reachable move succeeds. -/
def Step (S S' : GameState) : Prop := ∃ m : EngineMove, execMove m S = (true, S')

/-- Game states reachable from some fresh deal (the Fisher-Yates shuffle
can produce any permutation of the created deck) through successful
engine moves. -/
inductive Reachable : GameState → Prop where
  | deal (deck : List Card) (hperm : deck.Perm createDeck) :
      Reachable (startNewDealState deck)
  | step {S S' : GameState} (hR : Reachable S) (hS : Step S S') : Reachable S'

/-- All live cards of a state, across stock, waste, foundations and
tableau. -/
def allCards (S : GameState) : List Card :=
  S.stock ++ S.waste ++ S.foundations.flatten ++ S.tableau.flatten

/-- The 52-card deck invariant of the specification: the ids of the live
cards are exactly the ids of one standard deck, each exactly once. -/
def DeckInvariant (S : GameState) : Prop :=
  ((allCards S).map Card.cid).Perm (createDeck.map Card.cid)

theorem getD_set_self {α : Type} (l : List α) (i : Nat) (v d : α) (h : i < l.length) :
    (l.set i v).getD i d = v := by
  simp [List.getD_eq_getElem?_getD, List.getElem?_set_self', List.getElem?_eq_getElem h]

theorem getD_set_ne {α : Type} (l : List α) {i j : Nat} (v d : α) (h : i ≠ j) :
    (l.set i v).getD j d = l.getD j d := by
  simp [List.getD_eq_getElem?_getD, List.getElem?_set_ne h]

/-- A small concrete state used by witnesses: empty piles. -/
def demoState : GameState :=
  { stock := [], waste := [], foundations := [[], [], [], []],
    tableau := [[], [], [], [], [], [], []], moveCount := 0, score := 0 }

/-- C7: for every state, card and requested foundation index, when the
legality check `canMoveToFoundation` does not yield exactly the
requested index, `moveCardToFoundation` returns false and leaves every
field of the state unchanged; as a total Lean function it can throw no
exception, matching the engine's boolean-only failure contract. -/
theorem moveCardToFoundation_illegal_noop (S : GameState) (loc : Loc) (i : Nat)
    (card : Card) (h : canMoveToFoundation S card ≠ (i : Int)) :
    moveCardToFoundation S loc i card = (false, S) := by
  unfold moveCardToFoundation
  simp [bne_iff_ne, h]

theorem moveCardToFoundation_illegal_noop_witness :
    canMoveToFoundation demoState { suit := 1, rank := 2, faceUp := true } ≠ (1 : Int) ∧
    moveCardToFoundation demoState .waste 1 { suit := 1, rank := 2, faceUp := true } =
      (false, demoState) :=
  ⟨by decide,
   moveCardToFoundation_illegal_noop demoState .waste 1
     { suit := 1, rank := 2, faceUp := true } (by decide)⟩

/-- C10: calling `moveCardsToTableau` with the waste (or a foundation)
as source and a run of at least two cards whose first card passes the
tableau legality check returns true, appends the whole run to the
destination column and counts the move, while the waste (or foundation)
itself is left completely unchanged: the removal branches only fire for
single-card runs. -/
theorem moveCardsToTableau_multicard_leaves_source (S : GameState) (dst : Nat)
    (cards : List Card) (hlen : 2 ≤ cards.length)
    (hleg : canMoveToTableau S cards dst = true) (hdst : dst < S.tableau.length) :
    moveCardsToTableau S .waste dst cards =
      (true, { S with tableau := S.tableau.set dst ((S.tableau.getD dst []) ++ cards),
                      moveCount := S.moveCount + 1 }) ∧
    (∀ f : Nat, moveCardsToTableau S (.foundation f) dst cards =
      (true, { S with tableau := S.tableau.set dst ((S.tableau.getD dst []) ++ cards),
                      moveCount := S.moveCount + 1 })) ∧
    (S.tableau.set dst ((S.tableau.getD dst []) ++ cards)).getD dst [] =
      (S.tableau.getD dst []) ++ cards := by
  have hne1 : (cards.length == 1) = false := by
    simp only [beq_eq_false_iff_ne]; omega
  refine ⟨?_, fun f => ?_, getD_set_self _ _ _ _ hdst⟩ <;>
    simp [moveCardsToTableau, hleg, hne1, registerMove]

theorem moveCardsToTableau_multicard_leaves_source_witness :
    (2 ≤ 2 ∧
      canMoveToTableau demoState
        [{ suit := 3, rank := 13, faceUp := true }, { suit := 0, rank := 12, faceUp := true }]
        0 = true ∧ 0 < demoState.tableau.length) ∧
    moveCardsToTableau demoState .waste 0
        [{ suit := 3, rank := 13, faceUp := true }, { suit := 0, rank := 12, faceUp := true }] =
      (true, { demoState with
        tableau := demoState.tableau.set 0 ((demoState.tableau.getD 0 []) ++
          [{ suit := 3, rank := 13, faceUp := true }, { suit := 0, rank := 12, faceUp := true }]),
        moveCount := demoState.moveCount + 1 }) :=
  ⟨⟨by decide, by decide, by decide⟩,
   (moveCardsToTableau_multicard_leaves_source demoState 0
     [{ suit := 3, rank := 13, faceUp := true }, { suit := 0, rank := 12, faceUp := true }]
     (by decide) (by decide) (by decide)).1⟩

theorem drawLoop_spec (n : Nat) : ∀ (stock waste : List Card), n ≤ stock.length →
    drawLoop n stock waste =
      (stock.take (stock.length - n),
       waste ++ ((stock.drop (stock.length - n)).reverse.map
         fun c => { c with faceUp := true })) := by
  induction n with
  | zero => intro stock waste _; simp [drawLoop]
  | succ n ih =>
    intro stock waste hn
    have hne : stock ≠ [] := by
      intro h; rw [h] at hn; simp at hn
    obtain ⟨c, hc⟩ : ∃ c, stock.getLast? = some c := by
      cases h : stock.getLast? with
      | none => exact absurd (List.getLast?_eq_none_iff.mp h) hne
      | some c => exact ⟨c, rfl⟩
    have hsplit : stock.dropLast ++ [c] = stock := List.dropLast_append_getLast? c hc
    have hlen : stock.dropLast.length = stock.length - 1 := List.length_dropLast stock
    have hlen2 : (stock.dropLast ++ [c]).length = stock.dropLast.length + 1 := by simp
    have hstep : drawLoop (n + 1) stock waste =
        drawLoop n stock.dropLast (waste ++ [{ c with faceUp := true }]) := by
      rw [drawLoop, hc]
    have htake : stock.take (stock.length - (n + 1)) =
        stock.dropLast.take (stock.dropLast.length - n) := by
      conv_lhs => rw [← hsplit]
      rw [List.take_append_of_le_length (by omega)]
      congr 1
      omega
    have hdrop : stock.drop (stock.length - (n + 1)) =
        stock.dropLast.drop (stock.dropLast.length - n) ++ [c] := by
      conv_lhs => rw [← hsplit]
      rw [List.drop_append_of_le_length (by omega)]
      congr 2
      omega
    rw [hstep, ih stock.dropLast _ (by omega), htake, hdrop]
    simp

theorem recycleLoop_spec (n : Nat) : ∀ (waste : List Card), waste.length = n →
    ∀ stock : List Card,
    recycleLoop stock waste =
      (stock ++ (waste.reverse.map fun c => { c with faceUp := false }), []) := by
  induction n using Nat.strong_induction_on with
  | _ n ih =>
    intro waste hlen stock
    cases hc : waste.getLast? with
    | none =>
      have hnil : waste = [] := List.getLast?_eq_none_iff.mp hc
      subst hnil
      rw [recycleLoop]
      simp
    | some c =>
      have hsplit : waste.dropLast ++ [c] = waste := List.dropLast_append_getLast? c hc
      have hne : waste ≠ [] := by
        intro h; rw [h] at hc; simp at hc
      have hdl : waste.dropLast.length < n := by
        have := List.length_dropLast waste
        have : 0 < waste.length := List.length_pos.mpr hne
        omega
      have hstep : recycleLoop stock waste =
          recycleLoop (stock ++ [{ c with faceUp := false }]) waste.dropLast := by
        rw [recycleLoop, hc]
      rw [hstep, ih waste.dropLast.length hdl waste.dropLast rfl]
      have hrev : waste.reverse = c :: waste.dropLast.reverse := by
        conv_lhs => rw [← hsplit]
        simp
      rw [hrev]
      simp

/-- C3: `handleStockClick` draws `min(3, |stock|)` cards off the stock
end onto the waste end, each turned face-up, and counts one move, when
the stock is nonempty; recycles the entire waste into the stock in
reverse order, each turned face-down, and counts one move, when only
the waste is nonempty; and when both piles are empty it changes nothing
at all, so neither the move count nor the score moves.  The record
updates below leave `score` untouched in every branch: this operation
never changes the score. -/
theorem handleStockClick_spec (S : GameState) :
    (S.stock ≠ [] →
      handleStockClick S = { S with
        stock := S.stock.take (S.stock.length - min 3 S.stock.length),
        waste := S.waste ++
          ((S.stock.drop (S.stock.length - min 3 S.stock.length)).reverse.map
            fun c => { c with faceUp := true }),
        moveCount := S.moveCount + 1 }) ∧
    (S.stock = [] → S.waste ≠ [] →
      handleStockClick S = { S with
        stock := S.waste.reverse.map fun c => { c with faceUp := false },
        waste := [],
        moveCount := S.moveCount + 1 }) ∧
    (S.stock = [] → S.waste = [] → handleStockClick S = S) := by
  refine ⟨fun hs => ?_, fun hs hw => ?_, fun hs hw => ?_⟩
  · have hpos : 0 < S.stock.length := List.length_pos.mpr hs
    rw [handleStockClick, if_pos (by simpa using hpos),
      drawLoop_spec (min 3 S.stock.length) S.stock S.waste (Nat.min_le_right _ _)]
    rfl
  · have hpos : 0 < S.waste.length := List.length_pos.mpr hw
    rw [handleStockClick, if_neg (by simp [hs]), if_pos (by simpa using hpos),
      recycleLoop_spec S.waste.length S.waste rfl S.stock]
    simp [hs, registerMove]
  · rw [handleStockClick, if_neg (by simp [hs]), if_neg (by simp [hw])]

/-- Concrete four-card stock for the C3 witness. -/
def drawDemo : GameState :=
  { demoState with stock :=
      [{ suit := 3, rank := 4, faceUp := false }, { suit := 3, rank := 5, faceUp := false },
       { suit := 3, rank := 6, faceUp := false }, { suit := 3, rank := 7, faceUp := false }] }

/-- Concrete two-card waste for the C3 witness. -/
def recycleDemo : GameState :=
  { demoState with waste :=
      [{ suit := 0, rank := 9, faceUp := true }, { suit := 0, rank := 10, faceUp := true }] }

theorem handleStockClick_spec_witness :
    (drawDemo.stock ≠ [] ∧
      handleStockClick drawDemo = { drawDemo with
        stock := drawDemo.stock.take (drawDemo.stock.length - min 3 drawDemo.stock.length),
        waste := drawDemo.waste ++
          ((drawDemo.stock.drop (drawDemo.stock.length - min 3 drawDemo.stock.length)).reverse.map
            fun c => { c with faceUp := true }),
        moveCount := drawDemo.moveCount + 1 }) ∧
    (recycleDemo.stock = [] ∧ recycleDemo.waste ≠ [] ∧
      handleStockClick recycleDemo = { recycleDemo with
        stock := recycleDemo.waste.reverse.map fun c => { c with faceUp := false },
        waste := [],
        moveCount := recycleDemo.moveCount + 1 }) ∧
    (demoState.stock = [] ∧ demoState.waste = [] ∧ handleStockClick demoState = demoState) :=
  ⟨⟨by decide, (handleStockClick_spec drawDemo).1 (by decide)⟩,
   ⟨rfl, by decide, (handleStockClick_spec recycleDemo).2.1 rfl (by decide)⟩,
   ⟨rfl, rfl, (handleStockClick_spec demoState).2.2 rfl rfl⟩⟩

/-- Shape of the arguments the engine itself passes to
`moveCardsToTableau`: one card taken from a nonempty waste or
foundation, or a suffix of a tableau column moved to a different
column. -/
def sourceOk (S : GameState) (src : Loc) (dst : Nat) (cards : List Card) : Prop :=
  match src with
  | .waste => cards.length = 1 ∧ S.waste ≠ []
  | .foundation f => cards.length = 1 ∧ S.foundations.getD f [] ≠ []
  | .tableau s =>
    cards.length ≤ (S.tableau.getD s []).length ∧ s ≠ dst ∧ s < S.tableau.length

/-- The score delta the specification assigns to a tableau move: +5
from the waste, -15 from a foundation, and +5 exactly when removing the
run exposes a face-down card of the source column. -/
def c4ScoreDelta (S : GameState) (src : Loc) (cards : List Card) : Int :=
  match src with
  | .waste => 5
  | .foundation _ => -15
  | .tableau s =>
    revealBonus ((S.tableau.getD s []).take ((S.tableau.getD s []).length - cards.length))

/-- C4: a legal `moveCardsToTableau` call applies exactly the claimed
score deltas (+5 from waste, -15 from a foundation, +5 exactly when the
source column's new top was face-down, in which case it is flipped by
`revealTop`), appends the run to the destination column in order, and
increments the move count by exactly one. -/
theorem moveCardsToTableau_score_spec (S : GameState) (src : Loc) (dst : Nat)
    (cards : List Card) (hleg : canMoveToTableau S cards dst = true)
    (hdst : dst < S.tableau.length) (hsrc : sourceOk S src dst cards) :
    (moveCardsToTableau S src dst cards).1 = true ∧
    (moveCardsToTableau S src dst cards).2.score = S.score + c4ScoreDelta S src cards ∧
    (moveCardsToTableau S src dst cards).2.moveCount = S.moveCount + 1 ∧
    (moveCardsToTableau S src dst cards).2.tableau.getD dst [] =
      (S.tableau.getD dst []) ++ cards ∧
    (∀ s, src = Loc.tableau s →
      (moveCardsToTableau S src dst cards).2.tableau.getD s [] =
        revealTop ((S.tableau.getD s []).take
          ((S.tableau.getD s []).length - cards.length))) := by
  cases src with
  | waste =>
    obtain ⟨hone, hne⟩ := hsrc
    have hpos : 0 < S.waste.length := List.length_pos.mpr hne
    have hred : moveCardsToTableau S .waste dst cards =
        (true, { S with waste := S.waste.dropLast, score := S.score + 5,
                        tableau := S.tableau.set dst ((S.tableau.getD dst []) ++ cards),
                        moveCount := S.moveCount + 1 }) := by
      simp [moveCardsToTableau, hleg, hone, hpos, registerMove]
    rw [hred]
    exact ⟨rfl, by simp [c4ScoreDelta], rfl, getD_set_self _ _ _ _ hdst,
      fun s hcontra => by cases hcontra⟩
  | foundation f =>
    obtain ⟨hone, hne⟩ := hsrc
    have hpos : 0 < (S.foundations.getD f []).length := List.length_pos.mpr hne
    have hpos2 : 0 < (S.foundations[f]?.getD []).length := by
      rw [List.getD_eq_getElem?_getD] at hpos
      exact hpos
    have hred : moveCardsToTableau S (.foundation f) dst cards =
        (true, { S with
                 foundations := S.foundations.set f (S.foundations.getD f []).dropLast,
                 score := S.score - 15,
                 tableau := S.tableau.set dst ((S.tableau.getD dst []) ++ cards),
                 moveCount := S.moveCount + 1 }) := by
      simp [moveCardsToTableau, hleg, hone, hpos2, registerMove]
    rw [hred]
    exact ⟨rfl, by simp [c4ScoreDelta, sub_eq_add_neg], rfl, getD_set_self _ _ _ _ hdst,
      fun s hcontra => by cases hcontra⟩
  | tableau s =>
    obtain ⟨hle, hne, hs⟩ := hsrc
    have hred : moveCardsToTableau S (.tableau s) dst cards =
        (true, { S with
          tableau := (S.tableau.set s (revealTop ((S.tableau.getD s []).take
              ((S.tableau.getD s []).length - cards.length)))).set dst
            (((S.tableau.set s (revealTop ((S.tableau.getD s []).take
              ((S.tableau.getD s []).length - cards.length)))).getD dst []) ++ cards),
          score := S.score + revealBonus ((S.tableau.getD s []).take
            ((S.tableau.getD s []).length - cards.length)),
          moveCount := S.moveCount + 1 }) := by
      simp [moveCardsToTableau, hleg, registerMove]
    rw [hred]
    have hsetlen : dst < (S.tableau.set s (revealTop ((S.tableau.getD s []).take
        ((S.tableau.getD s []).length - cards.length)))).length := by
      simpa using hdst
    have hslen : s < (S.tableau.set s (revealTop ((S.tableau.getD s []).take
        ((S.tableau.getD s []).length - cards.length)))).length := by
      simpa using hs
    refine ⟨rfl, by simp [c4ScoreDelta], rfl, ?_, ?_⟩
    · rw [getD_set_self _ _ _ _ hsetlen, getD_set_ne _ _ _ hne]
    · intro s' hs'
      injection hs' with hseq
      subst hseq
      rw [getD_set_ne _ _ _ (Ne.symm hne), getD_set_self _ _ _ _ hs]

/-- Concrete state for the C4 witness: column 0 is a face-down card
under two face-up cards, column 1 a face-up black nine. -/
def tabDemo : GameState :=
  { demoState with tableau :=
      [[{ suit := 2, rank := 9, faceUp := false }, { suit := 0, rank := 8, faceUp := true },
        { suit := 3, rank := 7, faceUp := true }],
       [{ suit := 3, rank := 9, faceUp := true }], [], [], [], [], []] }

theorem moveCardsToTableau_score_spec_witness :
    (canMoveToTableau tabDemo
        [{ suit := 0, rank := 8, faceUp := true }, { suit := 3, rank := 7, faceUp := true }]
        1 = true ∧
      1 < tabDemo.tableau.length ∧
      sourceOk tabDemo (.tableau 0) 1
        [{ suit := 0, rank := 8, faceUp := true }, { suit := 3, rank := 7, faceUp := true }]) ∧
    (moveCardsToTableau tabDemo (.tableau 0) 1
        [{ suit := 0, rank := 8, faceUp := true }, { suit := 3, rank := 7, faceUp := true }]).2.score =
      tabDemo.score + c4ScoreDelta tabDemo (.tableau 0)
        [{ suit := 0, rank := 8, faceUp := true }, { suit := 3, rank := 7, faceUp := true }] :=
  ⟨⟨by decide, by decide, by
      unfold sourceOk
      exact ⟨by decide, by decide, by decide⟩⟩,
   (moveCardsToTableau_score_spec tabDemo (.tableau 0) 1
      [{ suit := 0, rank := 8, faceUp := true }, { suit := 3, rank := 7, faceUp := true }]
      (by decide) (by decide)
      (by unfold sourceOk; exact ⟨by decide, by decide, by decide⟩)).2.1⟩

theorem pushSnapshot_getLast? (history : List GameState) (s : GameState) :
    (pushSnapshot history s).getLast? = some s := by
  simp only [pushSnapshot, maxHistory]
  split
  next h =>
    have hle : (history ++ [s]).length - 500 ≤ history.length := by
      simp only [List.length_append, List.length_cons, List.length_nil]
      omega
    rw [List.drop_append_of_le_length hle]
    exact List.getLast?_concat _
  next => exact List.getLast?_concat _

/-- C2: every successfully executed engine move pushes exactly one
snapshot, whose content is the pre-move state `S` (pushed before any
mutation: the operations are pure here, and in the source each calls
`captureUndoSnapshot()` on its success path before touching any field),
and one subsequent `undoLastMove` pops it, returns true, and makes the
game state deep-equal to `S` in every field. -/
theorem execMoveWithUndo_roundtrip (m : EngineMove) (S S' : GameState)
    (history history' : List GameState)
    (hrun : execMoveWithUndo m S history = (true, S', history')) :
    history' = pushSnapshot history S ∧
    undoLastMove S' history' = (true, S, history'.dropLast) := by
  unfold execMoveWithUndo at hrun
  rw [Prod.ext_iff] at hrun
  obtain ⟨hb, hrest⟩ := hrun
  rw [Prod.ext_iff] at hrest
  obtain ⟨hS, hH⟩ := hrest
  simp only at hb hS hH
  rw [if_pos hb] at hH
  refine ⟨hH.symm, ?_⟩
  have hlast : history'.getLast? = some S := by
    rw [← hH]; exact pushSnapshot_getLast? history S
  have hne : history' ≠ [] := by
    intro hnil; rw [hnil] at hlast; simp at hlast
  simp [undoLastMove, canUndo, hlast, List.length_pos.mpr hne]

theorem execMoveWithUndo_roundtrip_witness :
    execMoveWithUndo .stockClick drawDemo [] =
      (true, handleStockClick drawDemo, pushSnapshot [] drawDemo) ∧
    undoLastMove (handleStockClick drawDemo) (pushSnapshot [] drawDemo) =
      (true, drawDemo, (pushSnapshot [] drawDemo).dropLast) :=
  ⟨by decide,
   (execMoveWithUndo_roundtrip .stockClick drawDemo (handleStockClick drawDemo) []
      (pushSnapshot [] drawDemo) (by decide)).2⟩

/-- Cards of the C1 counterexample deal: the two of hearts is dealt
face-up onto column 0, the ace of spades face-up onto column 1, the ace
of hearts face-up onto column 2. -/
def twoHearts : Card := { suit := 0, rank := 2, faceUp := false }

def aceSpades : Card := { suit := 3, rank := 1, faceUp := false }

def aceHearts : Card := { suit := 0, rank := 1, faceUp := false }

/-- The 49 remaining cards of the deck, in creation order. -/
def c1Others : List Card :=
  createDeck.filter (fun c => !(c == twoHearts || c == aceSpades || c == aceHearts))

/-- A shuffle order (a permutation of `createDeck`) that deals the three
special cards to the face-up tops of columns 0, 1 and 2: `dealTableau`
pops from the deck end, so index 51 lands face-up on column 0, index 49
face-up on column 1, index 46 face-up on column 2. -/
def c1Deck : List Card :=
  c1Others.take 46 ++ [aceHearts] ++ (c1Others.drop 46).take 2 ++ [aceSpades] ++
    c1Others.drop 48 ++ [twoHearts]

/-- State after dealing `c1Deck`. -/
def c1S0 : GameState := startNewDealState c1Deck

/-- After moving the ace of hearts from column 2 to its foundation. -/
def c1S1 : GameState := (execMove (.tableauToFoundation 2 2 0) c1S0).2

/-- After moving the ace of spades from column 1 onto the two of hearts
on column 0. -/
def c1S2 : GameState := (execMove (.tableauToTableau 1 1 0) c1S1).2

/-- After dropping the two-card stack (two of hearts under ace of
spades) of column 0 onto foundation 0: `attemptMove` forwards the drop
to `moveCardToFoundation` with the first card of the stack, which pops
only the column top.  The two of hearts is now both on column 0 and on
foundation 0, and the ace of spades is gone. -/
def c1S3 : GameState := (execMove (.tableauToFoundation 0 0 0) c1S2).2

/-- C1: the 52-card deck invariant is violated by a successful engine
move from a reachable state: after a legal deal and two ordinary moves,
dropping the face-up stack `[two of hearts, ace of spades]` onto
foundation 0 is reported successful, yet the resulting state holds the
two of hearts twice and the ace of spades not at all.  The code's
single-card pop in `moveCardToFoundation` applied to a multi-card drop
is the slip; the specification's invariant is the clear intent. -/
theorem deck_invariant_violated_on_reachable_state :
    Reachable c1S3 ∧ ¬ DeckInvariant c1S3 ∧
    ((allCards c1S3).map Card.cid).count twoHearts.cid = 2 ∧
    ((allCards c1S3).map Card.cid).count aceSpades.cid = 0 := by
  refine ⟨?_, ?_, by decide, by decide⟩
  · have h0 : Reachable c1S0 := Reachable.deal c1Deck (by decide)
    have h1 : Reachable c1S1 :=
      Reachable.step h0 ⟨.tableauToFoundation 2 2 0, by decide⟩
    have h2 : Reachable c1S2 :=
      Reachable.step h1 ⟨.tableauToTableau 1 1 0, by decide⟩
    exact Reachable.step h2 ⟨.tableauToFoundation 0 0 0, by decide⟩
  · unfold DeckInvariant
    decide

theorem popPush_spec (n : Nat) : ∀ (deck acc : List Card), n ≤ deck.length →
    popPush n deck acc =
      (deck.take (deck.length - n), acc ++ (deck.drop (deck.length - n)).reverse) := by
  induction n with
  | zero => intro deck acc _; simp [popPush]
  | succ n ih =>
    intro deck acc hn
    have hne : deck ≠ [] := by
      intro h; rw [h] at hn; simp at hn
    obtain ⟨c, hc⟩ : ∃ c, deck.getLast? = some c := by
      cases h : deck.getLast? with
      | none => exact absurd (List.getLast?_eq_none_iff.mp h) hne
      | some c => exact ⟨c, rfl⟩
    have hsplit : deck.dropLast ++ [c] = deck := List.dropLast_append_getLast? c hc
    have hlen : deck.dropLast.length = deck.length - 1 := List.length_dropLast deck
    have hlen2 : (deck.dropLast ++ [c]).length = deck.dropLast.length + 1 := by simp
    have hstep : popPush (n + 1) deck acc = popPush n deck.dropLast (acc ++ [c]) := by
      rw [popPush, hc]
    have htake : deck.take (deck.length - (n + 1)) =
        deck.dropLast.take (deck.dropLast.length - n) := by
      conv_lhs => rw [← hsplit]
      rw [List.take_append_of_le_length (by omega)]
      congr 1
      omega
    have hdrop : deck.drop (deck.length - (n + 1)) =
        deck.dropLast.drop (deck.dropLast.length - n) ++ [c] := by
      conv_lhs => rw [← hsplit]
      rw [List.drop_append_of_le_length (by omega)]
      congr 2
      omega
    rw [hstep, ih deck.dropLast _ (by omega), htake, hdrop]
    simp

theorem flipLast_length (l : List Card) : (flipLast l).length = l.length := by
  induction l with
  | nil => rfl
  | cons c rest ih =>
    cases rest with
    | nil => rfl
    | cons d rest' => simpa [flipLast] using ih

theorem flipLast_map_cid (l : List Card) : (flipLast l).map Card.cid = l.map Card.cid := by
  induction l with
  | nil => rfl
  | cons c rest ih =>
    cases rest with
    | nil => rfl
    | cons d rest' => simpa [flipLast, Card.cid] using ih

theorem flipLast_pattern (l : List Card) (hdown : ∀ c ∈ l, c.faceUp = false) :
    ∀ j (hj : j < (flipLast l).length),
      (((flipLast l).get ⟨j, hj⟩).faceUp = true ↔ j = l.length - 1) := by
  induction l with
  | nil => intro j hj; simp [flipLast] at hj
  | cons c rest ih =>
    cases rest with
    | nil =>
      intro j hj
      simp only [flipLast, List.length_singleton] at hj
      interval_cases j
      simp [flipLast]
    | cons d rest' =>
      intro j hj
      have hlen : (flipLast (c :: d :: rest')).length = rest'.length + 2 := by
        rw [flipLast_length]; rfl
      cases j with
      | zero =>
        have hc : c.faceUp = false := hdown c (by simp)
        simp only [flipLast, List.get]
        simp [hc]
      | succ j =>
        have hdown' : ∀ x ∈ d :: rest', x.faceUp = false := by
          intro x hx; exact hdown x (by simp [hx])
        have hj' : j < (flipLast (d :: rest')).length := by
          rw [flipLast_length]
          rw [hlen] at hj
          rw [List.length_cons]
          omega
        have := ih hdown' j hj'
        simp only [flipLast, List.get] at this ⊢
        rw [this]
        simp only [List.length_cons]
        omega

theorem popPush_cid_perm (n : Nat) : ∀ (deck acc : List Card),
    (((popPush n deck acc).1 ++ (popPush n deck acc).2).map Card.cid).Perm
      ((deck ++ acc).map Card.cid) := by
  induction n with
  | zero => intro deck acc; simpa [popPush] using (List.perm_append_comm).map Card.cid
  | succ n ih =>
    intro deck acc
    cases hc : deck.getLast? with
    | none =>
      have hnil : deck = [] := List.getLast?_eq_none_iff.mp hc
      subst hnil
      simpa [popPush] using (List.perm_append_comm).map Card.cid
    | some c =>
      have hsplit : deck.dropLast ++ [c] = deck := List.dropLast_append_getLast? c hc
      have hstep : popPush (n + 1) deck acc = popPush n deck.dropLast (acc ++ [c]) := by
        rw [popPush, hc]
      rw [hstep]
      refine (ih deck.dropLast (acc ++ [c])).trans (List.Perm.map Card.cid ?_)
      have h2 : (deck.dropLast ++ (acc ++ [c])).Perm (deck.dropLast ++ ([c] ++ acc)) :=
        List.Perm.append_left _ List.perm_append_comm
      have h3 : deck.dropLast ++ ([c] ++ acc) = (deck.dropLast ++ [c]) ++ acc :=
        (List.append_assoc _ _ _).symm
      rw [h3, hsplit] at h2
      exact h2

theorem dealColumns_cid_perm (counts : List Nat) : ∀ deck : List Card,
    (((dealColumns counts deck).2 ++ (dealColumns counts deck).1.flatten).map Card.cid).Perm
      (deck.map Card.cid) := by
  induction counts with
  | nil => intro deck; simp [dealColumns]
  | cons n rest ih =>
    intro deck
    simp only [dealColumns, List.flatten_cons]
    have hmid := ih (popPush n deck []).1
    have hpop := popPush_cid_perm n deck []
    have hstep1 : ((dealColumns rest (popPush n deck []).1).2 ++
        (flipLast (popPush n deck []).2 ++
          (dealColumns rest (popPush n deck []).1).1.flatten)).Perm
        (flipLast (popPush n deck []).2 ++
          ((dealColumns rest (popPush n deck []).1).2 ++
            (dealColumns rest (popPush n deck []).1).1.flatten)) := by
      refine List.perm_append_comm.trans ?_
      rw [List.append_assoc]
      exact List.Perm.append_left _ List.perm_append_comm
    refine (List.Perm.map Card.cid hstep1).trans ?_
    rw [List.map_append, flipLast_map_cid]
    refine (List.Perm.append_left _ hmid).trans ?_
    have hswap : ((popPush n deck []).2.map Card.cid ++ (popPush n deck []).1.map Card.cid).Perm
        (((popPush n deck []).1 ++ (popPush n deck []).2).map Card.cid) := by
      rw [List.map_append]
      exact List.perm_append_comm
    refine hswap.trans ?_
    simpa using hpop

theorem dealColumns_step (n k : Nat) (rest : List Nat) (deck : List Card)
    (hk : deck.length = k + n) :
    dealColumns (n :: rest) deck =
      ((flipLast ((deck.drop k).reverse)) :: (dealColumns rest (deck.take k)).1,
       (dealColumns rest (deck.take k)).2) := by
  have hn : n ≤ deck.length := by omega
  have hkk : deck.length - n = k := by omega
  simp [dealColumns, popPush_spec n deck [] hn, hkk]

theorem dealt_column_pattern (s : List Card) (k : Nat) (hslen : s.length = k + 1)
    (hsdown : ∀ c ∈ s.reverse, c.faceUp = false) :
    (flipLast s.reverse).length = k + 1 ∧
    (∀ j (hj : j < (flipLast s.reverse).length),
      (((flipLast s.reverse).get ⟨j, hj⟩).faceUp = true ↔ j = k)) := by
  refine ⟨by rw [flipLast_length, List.length_reverse, hslen], ?_⟩
  intro j hj
  have hpat := flipLast_pattern s.reverse hsdown j hj
  rw [hpat, List.length_reverse, hslen]
  omega

/-- C5: immediately after a deal from any shuffle order of the created
deck, the stock holds exactly 24 face-down cards, the waste and all
four foundations are empty, tableau column `i` holds exactly `i+1`
cards of which exactly the last is face-up, score and move count are
zero, and the card ids across all piles are exactly the 52 pairwise
distinct ids of one standard deck. -/
theorem startNewDeal_spec (deck : List Card) (hperm : deck.Perm createDeck) :
    (startNewDealState deck).stock.length = 24 ∧
    (∀ c ∈ (startNewDealState deck).stock, c.faceUp = false) ∧
    (startNewDealState deck).waste = [] ∧
    (startNewDealState deck).foundations = [[], [], [], []] ∧
    (startNewDealState deck).tableau.length = 7 ∧
    (∀ i, i < 7 → ((startNewDealState deck).tableau.getD i []).length = i + 1 ∧
      (∀ j (hj : j < ((startNewDealState deck).tableau.getD i []).length),
        ((((startNewDealState deck).tableau.getD i []).get ⟨j, hj⟩).faceUp = true ↔ j = i))) ∧
    (startNewDealState deck).score = 0 ∧
    (startNewDealState deck).moveCount = 0 ∧
    ((allCards (startNewDealState deck)).map Card.cid).Perm (createDeck.map Card.cid) ∧
    (createDeck.map Card.cid).Nodup := by
  have hlen : deck.length = 52 := by
    have h1 := hperm.length_eq
    have h2 : createDeck.length = 52 := by decide
    omega
  have hdown : ∀ c ∈ deck, c.faceUp = false := by
    have hall : ∀ c ∈ createDeck, c.faceUp = false := by decide
    intro c hc
    exact hall c (hperm.mem_iff.mp hc)
  have hdeal : dealColumns [1, 2, 3, 4, 5, 6, 7] deck =
      ([flipLast ((deck.drop 51).reverse),
        flipLast (((deck.take 51).drop 49).reverse),
        flipLast ((((deck.take 51).take 49).drop 46).reverse),
        flipLast (((((deck.take 51).take 49).take 46).drop 42).reverse),
        flipLast ((((((deck.take 51).take 49).take 46).take 42).drop 37).reverse),
        flipLast (((((((deck.take 51).take 49).take 46).take 42).take 37).drop 31).reverse),
        flipLast ((((((((deck.take 51).take 49).take 46).take 42).take 37).take 31).drop 24).reverse)],
       (((((((deck.take 51).take 49).take 46).take 42).take 37).take 31).take 24)) := by
    rw [dealColumns_step 1 51 _ deck (by rw [hlen]),
        dealColumns_step 2 49 _ _ (by simp only [List.length_take, hlen]; omega),
        dealColumns_step 3 46 _ _ (by simp only [List.length_take, hlen]; omega),
        dealColumns_step 4 42 _ _ (by simp only [List.length_take, hlen]; omega),
        dealColumns_step 5 37 _ _ (by simp only [List.length_take, hlen]; omega),
        dealColumns_step 6 31 _ _ (by simp only [List.length_take, hlen]; omega),
        dealColumns_step 7 24 _ _ (by simp only [List.length_take, hlen]; omega)]
    simp [dealColumns]
  have hS : startNewDealState deck =
      { stock := (((((((deck.take 51).take 49).take 46).take 42).take 37).take 31).take 24),
        waste := [],
        foundations := [[], [], [], []],
        tableau := [flipLast ((deck.drop 51).reverse),
          flipLast (((deck.take 51).drop 49).reverse),
          flipLast ((((deck.take 51).take 49).drop 46).reverse),
          flipLast (((((deck.take 51).take 49).take 46).drop 42).reverse),
          flipLast ((((((deck.take 51).take 49).take 46).take 42).drop 37).reverse),
          flipLast (((((((deck.take 51).take 49).take 46).take 42).take 37).drop 31).reverse),
          flipLast ((((((((deck.take 51).take 49).take 46).take 42).take 37).take 31).drop 24).reverse)],
        moveCount := 0,
        score := 0 } := by
    rw [startNewDealState, hdeal]
  have hsubDeck : ∀ c ∈ (((((((deck.take 51).take 49).take 46).take 42).take 37).take 31).take 24),
      c ∈ deck := by
    intro c hc
    exact List.take_subset _ _ (List.take_subset _ _ (List.take_subset _ _
      (List.take_subset _ _ (List.take_subset _ _ (List.take_subset _ _
        (List.take_subset _ _ hc))))))
  have hdownRev : ∀ (l : List Card), (∀ c ∈ l, c ∈ deck) →
      ∀ c ∈ l.reverse, c.faceUp = false := by
    intro l hsubl c hcrev
    exact hdown c (hsubl c (List.mem_reverse.mp hcrev))
  refine ⟨?_, ?_, ?_, ?_, ?_, ?_, ?_, ?_, ?_, by decide⟩
  · rw [hS]
    simp only [List.length_take, hlen]
    omega
  · rw [hS]
    intro c hc
    exact hdown c (hsubDeck c hc)
  · rw [hS]
  · rw [hS]
  · rw [hS]
    rfl
  · intro i hi
    rw [hS]
    interval_cases i
    · exact dealt_column_pattern _ 0 (by simp only [List.length_drop, hlen] <;> omega)
        (hdownRev _ (fun c hc => List.drop_subset _ _ hc))
    · exact dealt_column_pattern _ 1
        (by simp only [List.length_drop, List.length_take, hlen] <;> omega)
        (hdownRev _ (fun c hc => List.take_subset _ _ (List.drop_subset _ _ hc)))
    · exact dealt_column_pattern _ 2
        (by simp only [List.length_drop, List.length_take, hlen] <;> omega)
        (hdownRev _ (fun c hc => List.take_subset _ _ (List.take_subset _ _
          (List.drop_subset _ _ hc))))
    · exact dealt_column_pattern _ 3
        (by simp only [List.length_drop, List.length_take, hlen] <;> omega)
        (hdownRev _ (fun c hc => List.take_subset _ _ (List.take_subset _ _
          (List.take_subset _ _ (List.drop_subset _ _ hc)))))
    · exact dealt_column_pattern _ 4
        (by simp only [List.length_drop, List.length_take, hlen] <;> omega)
        (hdownRev _ (fun c hc => List.take_subset _ _ (List.take_subset _ _
          (List.take_subset _ _ (List.take_subset _ _ (List.drop_subset _ _ hc))))))
    · exact dealt_column_pattern _ 5
        (by simp only [List.length_drop, List.length_take, hlen] <;> omega)
        (hdownRev _ (fun c hc => List.take_subset _ _ (List.take_subset _ _
          (List.take_subset _ _ (List.take_subset _ _ (List.take_subset _ _
            (List.drop_subset _ _ hc)))))))
    · exact dealt_column_pattern _ 6
        (by simp only [List.length_drop, List.length_take, hlen] <;> omega)
        (hdownRev _ (fun c hc => List.take_subset _ _ (List.take_subset _ _
          (List.take_subset _ _ (List.take_subset _ _ (List.take_subset _ _
            (List.take_subset _ _ (List.drop_subset _ _ hc))))))))
  · rw [hS]
  · rw [hS]
  · have hall : (allCards (startNewDealState deck)).map Card.cid =
        (((dealColumns [1, 2, 3, 4, 5, 6, 7] deck).2 ++
          (dealColumns [1, 2, 3, 4, 5, 6, 7] deck).1.flatten).map Card.cid) := by
      simp [allCards, startNewDealState]
    rw [hall]
    exact (dealColumns_cid_perm _ deck).trans (hperm.map Card.cid)

theorem startNewDeal_spec_witness :
    createDeck.Perm createDeck ∧
    (startNewDealState createDeck).stock.length = 24 ∧
    ((startNewDealState createDeck).tableau.getD 6 []).length = 6 + 1 :=
  ⟨List.Perm.refl _,
   (startNewDeal_spec createDeck (List.Perm.refl _)).1,
   ((startNewDeal_spec createDeck (List.Perm.refl _)).2.2.2.2.2.1 6 (by omega)).1⟩

/-- A tableau column is well-oriented when no face-down card sits above
(later in the list than) a face-up card: the face-up cards form a
contiguous suffix. -/
def ColOK (l : List Card) : Prop :=
  l.Pairwise (fun a b => a.faceUp = true → b.faceUp = true)

/-- Face-orientation invariant maintained by the engine: every tableau
column is well-oriented, every waste card is face-up, every foundation
card is face-up. -/
def FaceInv (S : GameState) : Prop :=
  (∀ l ∈ S.tableau, ColOK l) ∧
  (∀ c ∈ S.waste, c.faceUp = true) ∧
  (∀ l ∈ S.foundations, ∀ c ∈ l, c.faceUp = true)

theorem ColOK_nil : ColOK [] := List.Pairwise.nil

theorem ColOK_append (l ups : List Card) (hl : ColOK l)
    (hups : ∀ c ∈ ups, c.faceUp = true) : ColOK (l ++ ups) := by
  rw [ColOK, List.pairwise_append]
  refine ⟨hl, ?_, ?_⟩
  · exact List.pairwise_of_forall_mem_list fun a _ b hb _ => hups b hb
  · intro a _ b hb _
    exact hups b hb

theorem ColOK_take (l : List Card) (n : Nat) (hl : ColOK l) : ColOK (l.take n) :=
  hl.sublist (List.take_sublist n l)

theorem ColOK_dropLast (l : List Card) (hl : ColOK l) : ColOK l.dropLast :=
  hl.sublist (List.dropLast_sublist l)

theorem ColOK_revealTop (l : List Card) (hl : ColOK l) : ColOK (revealTop l) := by
  unfold revealTop
  cases hc : l.getLast? with
  | none => exact hl
  | some topc =>
    by_cases hf : topc.faceUp
    · simpa [hf] using hl
    · simp only [hf, Bool.not_false, if_pos]
      exact ColOK_append _ _ (ColOK_dropLast l hl) (by intro c hcm; simp at hcm; simp [hcm])

theorem forall_mem_set {α : Type} {P : α → Prop} {xs : List α} {i : Nat} {v : α}
    (hxs : ∀ x ∈ xs, P x) (hv : P v) : ∀ x ∈ xs.set i v, P x := by
  intro x hx
  rcases List.mem_or_eq_of_mem_set hx with h | h
  · exact hxs x h
  · subst h; exact hv

theorem getD_mem_or_nil {α : Type} (xs : List (List α)) (i : Nat) :
    xs.getD i [] ∈ xs ∨ xs.getD i [] = [] := by
  by_cases h : i < xs.length
  · left
    rw [List.getD_eq_getElem?_getD, List.getElem?_eq_getElem h]
    exact List.getElem_mem h
  · right
    rw [List.getD_eq_getElem?_getD, List.getElem?_eq_none (by omega)]
    rfl

theorem foundation_push_ok (fs : List (List Card)) (i : Nat) (card : Card)
    (hfs : ∀ l ∈ fs, ∀ c ∈ l, c.faceUp = true) (hcard : card.faceUp = true) :
    ∀ l ∈ fs.set i ((fs.getD i []) ++ [card]), ∀ c ∈ l, c.faceUp = true := by
  refine forall_mem_set hfs ?_
  intro c hc
  rcases List.mem_append.mp hc with h | h
  · rcases getD_mem_or_nil fs i with hm | hnil
    · exact hfs _ hm c h
    · rw [hnil] at h; simp at h
  · simp only [List.mem_singleton] at h
    subst h; exact hcard

theorem foundation_drop_ok (fs : List (List Card)) (i : Nat)
    (hfs : ∀ l ∈ fs, ∀ c ∈ l, c.faceUp = true) :
    ∀ l ∈ fs.set i (fs.getD i []).dropLast, ∀ c ∈ l, c.faceUp = true := by
  refine forall_mem_set hfs ?_
  intro c hc
  rcases getD_mem_or_nil fs i with hm | hnil
  · exact hfs _ hm c (List.dropLast_subset _ hc)
  · rw [hnil] at hc; simp at hc

theorem tableau_push_ok (ts : List (List Card)) (i : Nat) (cards : List Card)
    (hts : ∀ l ∈ ts, ColOK l) (hcards : ∀ c ∈ cards, c.faceUp = true) :
    ∀ l ∈ ts.set i ((ts.getD i []) ++ cards), ColOK l := by
  refine forall_mem_set hts (ColOK_append _ _ ?_ hcards)
  rcases getD_mem_or_nil ts i with hm | hnil
  · exact hts _ hm
  · rw [hnil]; exact ColOK_nil

theorem tableau_remove_ok (ts : List (List Card)) (i n : Nat)
    (hts : ∀ l ∈ ts, ColOK l) :
    ∀ l ∈ ts.set i (revealTop ((ts.getD i []).take n)), ColOK l := by
  refine forall_mem_set hts (ColOK_revealTop _ (ColOK_take _ _ ?_))
  rcases getD_mem_or_nil ts i with hm | hnil
  · exact hts _ hm
  · rw [hnil]; exact ColOK_nil

theorem tableau_dropLast_ok (ts : List (List Card)) (i : Nat)
    (hts : ∀ l ∈ ts, ColOK l) :
    ∀ l ∈ ts.set i (revealTop ((ts.getD i []).dropLast)), ColOK l := by
  refine forall_mem_set hts (ColOK_revealTop _ (ColOK_dropLast _ ?_))
  rcases getD_mem_or_nil ts i with hm | hnil
  · exact hts _ hm
  · rw [hnil]; exact ColOK_nil

theorem faceInv_moveCardToFoundation (S : GameState) (loc : Loc) (i : Nat) (card : Card)
    (hinv : FaceInv S) (hcard : card.faceUp = true) :
    FaceInv (moveCardToFoundation S loc i card).2 := by
  obtain ⟨htab, hwaste, hfnd⟩ := hinv
  unfold moveCardToFoundation
  split
  · exact ⟨htab, hwaste, hfnd⟩
  cases loc with
  | waste =>
    dsimp only
    split
    next =>
      refine ⟨by simpa [registerMove] using htab,
              ?_,
              by simpa [registerMove] using foundation_push_ok _ i card hfnd hcard⟩
      intro c hc
      simp only [registerMove] at hc
      exact hwaste c (List.dropLast_subset _ hc)
    next =>
      exact ⟨by simpa [registerMove] using htab,
             by simpa [registerMove] using hwaste,
             by simpa [registerMove] using foundation_push_ok _ i card hfnd hcard⟩
  | tableau colIndex =>
    dsimp only
    split
    next =>
      exact ⟨by simpa [registerMove] using tableau_dropLast_ok S.tableau colIndex htab,
             by simpa [registerMove] using hwaste,
             by simpa [registerMove] using foundation_push_ok _ i card hfnd hcard⟩
    next =>
      exact ⟨by simpa [registerMove] using htab,
             by simpa [registerMove] using hwaste,
             by simpa [registerMove] using foundation_push_ok _ i card hfnd hcard⟩
  | foundation f =>
    exact ⟨by simpa [registerMove] using htab,
           by simpa [registerMove] using hwaste,
           by simpa [registerMove] using foundation_push_ok _ i card hfnd hcard⟩

theorem faceInv_moveCardsToTableau (S : GameState) (loc : Loc) (dst : Nat)
    (cards : List Card) (hinv : FaceInv S)
    (hcards : ∀ c ∈ cards, c.faceUp = true) :
    FaceInv (moveCardsToTableau S loc dst cards).2 := by
  obtain ⟨htab, hwaste, hfnd⟩ := hinv
  unfold moveCardsToTableau
  split
  · exact ⟨htab, hwaste, hfnd⟩
  cases loc with
  | waste =>
    dsimp only
    split
    next =>
      refine ⟨by simpa [registerMove] using tableau_push_ok _ dst cards htab hcards,
              ?_,
              by simpa [registerMove] using hfnd⟩
      intro c hc
      simp only [registerMove] at hc
      exact hwaste c (List.dropLast_subset _ hc)
    next =>
      exact ⟨by simpa [registerMove] using tableau_push_ok _ dst cards htab hcards,
             by simpa [registerMove] using hwaste,
             by simpa [registerMove] using hfnd⟩
  | foundation f =>
    dsimp only
    split
    next =>
      exact ⟨by simpa [registerMove] using tableau_push_ok _ dst cards htab hcards,
             by simpa [registerMove] using hwaste,
             by simpa [registerMove] using foundation_drop_ok _ f hfnd⟩
    next =>
      exact ⟨by simpa [registerMove] using tableau_push_ok _ dst cards htab hcards,
             by simpa [registerMove] using hwaste,
             by simpa [registerMove] using hfnd⟩
  | tableau s =>
    refine ⟨?_, by simpa [registerMove] using hwaste, by simpa [registerMove] using hfnd⟩
    have hts1 := tableau_remove_ok S.tableau s
      ((S.tableau.getD s []).length - cards.length) htab
    simpa [registerMove] using tableau_push_ok _ dst cards hts1 hcards

theorem faceInv_tryMoveFoundationToTableau (S : GameState) (i : Nat)
    (hinv : FaceInv S) : FaceInv (tryMoveFoundationToTableau S i).2 := by
  obtain ⟨htab, hwaste, hfnd⟩ := hinv
  unfold tryMoveFoundationToTableau
  dsimp only
  cases hlast : (S.foundations.getD i []).getLast? with
  | none => exact ⟨htab, hwaste, hfnd⟩
  | some card =>
    dsimp only
    have hcard : card.faceUp = true := by
      rcases getD_mem_or_nil S.foundations i with hm | hnil
      · exact hfnd _ hm card (List.mem_of_mem_getLast? hlast)
      · rw [hnil] at hlast; simp at hlast
    cases hfind : (List.range 7).find? (fun col => canMoveToTableau S [card] col) with
    | none => exact ⟨htab, hwaste, hfnd⟩
    | some col =>
      refine ⟨?_, by simpa [registerMove] using hwaste, ?_⟩
      · have := tableau_push_ok S.tableau col [card] htab
          (by intro c hc; simp at hc; simp [hc, hcard])
        simpa [registerMove] using this
      · simpa [registerMove] using foundation_drop_ok _ i hfnd

theorem faceInv_handleStockClick (S : GameState) (hinv : FaceInv S) :
    FaceInv (handleStockClick S) := by
  obtain ⟨htab, hwaste, hfnd⟩ := hinv
  unfold handleStockClick
  split
  next hs =>
    have hdraw := drawLoop_spec (min 3 S.stock.length) S.stock S.waste
      (Nat.min_le_right _ _)
    refine ⟨by simpa [registerMove, hdraw] using htab, ?_,
            by simpa [registerMove, hdraw] using hfnd⟩
    intro c hc
    simp only [registerMove, hdraw] at hc
    rcases List.mem_append.mp hc with h | h
    · exact hwaste c h
    · obtain ⟨d, _, hd⟩ := List.mem_map.mp h
      rw [← hd]
  next =>
    split
    next hw =>
      have hrec := recycleLoop_spec S.waste.length S.waste rfl S.stock
      exact ⟨by simpa [registerMove, hrec] using htab,
             by simp [registerMove, hrec],
             by simpa [registerMove, hrec] using hfnd⟩
    next => exact ⟨htab, hwaste, hfnd⟩

theorem step_preserves_faceInv (m : EngineMove) (S : GameState) (hinv : FaceInv S) :
    FaceInv (execMove m S).2 := by
  cases m with
  | stockClick =>
    unfold execMove
    dsimp only
    split
    · exact faceInv_handleStockClick S hinv
    · exact hinv
  | wasteToFoundation i =>
    unfold execMove
    dsimp only
    cases hlast : S.waste.getLast? with
    | none => exact hinv
    | some c =>
      exact faceInv_moveCardToFoundation S .waste i c hinv
        (hinv.2.1 c (List.mem_of_mem_getLast? hlast))
  | wasteToTableau t =>
    unfold execMove
    dsimp only
    cases hlast : S.waste.getLast? with
    | none => exact hinv
    | some c =>
      refine faceInv_moveCardsToTableau S .waste t [c] hinv ?_
      intro d hd
      simp only [List.mem_singleton] at hd
      rw [hd]
      exact hinv.2.1 c (List.mem_of_mem_getLast? hlast)
  | tableauToFoundation fromCol startIndex i =>
    unfold execMove
    dsimp only
    split
    · exact hinv
    next hguard =>
      cases hhead : ((S.tableau.getD fromCol []).drop startIndex).head? with
      | none => exact hinv
      | some c =>
        refine faceInv_moveCardToFoundation S (.tableau fromCol) i c hinv ?_
        have hall : ((S.tableau.getD fromCol []).drop startIndex).all (·.faceUp) = true := by
          rcases Bool.eq_false_or_eq_true
            (((S.tableau.getD fromCol []).drop startIndex).all (·.faceUp)) with h | h
          · exact h
          · rw [h] at hguard; simp at hguard
        exact List.all_eq_true.mp hall c (List.mem_of_mem_head? hhead)
  | tableauToTableau fromCol startIndex t =>
    unfold execMove
    dsimp only
    split
    · exact hinv
    next hguard =>
      refine faceInv_moveCardsToTableau S (.tableau fromCol) t _ hinv ?_
      have hall : ((S.tableau.getD fromCol []).drop startIndex).all (·.faceUp) = true := by
        rcases Bool.eq_false_or_eq_true
          (((S.tableau.getD fromCol []).drop startIndex).all (·.faceUp)) with h | h
        · exact h
        · rw [h] at hguard; simp at hguard
      exact List.all_eq_true.mp hall
  | foundationToTableau i => exact faceInv_tryMoveFoundationToTableau S i hinv
  | foundationDragToTableau i t =>
    unfold execMove
    dsimp only
    cases hlast : (S.foundations.getD i []).getLast? with
    | none => exact hinv
    | some c =>
      refine faceInv_moveCardsToTableau S (.foundation i) t [c] hinv ?_
      intro d hd
      simp only [List.mem_singleton] at hd
      rw [hd]
      rcases getD_mem_or_nil S.foundations i with hm | hnil
      · exact hinv.2.2 _ hm c (List.mem_of_mem_getLast? hlast)
      · rw [hnil] at hlast; simp at hlast
  | foundationToFoundation f i =>
    unfold execMove
    dsimp only
    cases hlast : (S.foundations.getD f []).getLast? with
    | none => exact hinv
    | some c =>
      refine faceInv_moveCardToFoundation S (.foundation f) i c hinv ?_
      rcases getD_mem_or_nil S.foundations f with hm | hnil
      · exact hinv.2.2 _ hm c (List.mem_of_mem_getLast? hlast)
      · rw [hnil] at hlast; simp at hlast

theorem ColOK_flipLast_of_down (l : List Card)
    (hdown : ∀ c ∈ l, c.faceUp = false) : ColOK (flipLast l) := by
  induction l with
  | nil => exact ColOK_nil
  | cons c rest ih =>
    cases rest with
    | nil =>
      refine List.pairwise_singleton _ _
    | cons d rest' =>
      have heq : flipLast (c :: d :: rest') = c :: flipLast (d :: rest') := rfl
      rw [heq]
      refine List.Pairwise.cons ?_ (ih (fun x hx => hdown x (by simp [hx])))
      intro b _ hcup
      have := hdown c (by simp)
      rw [this] at hcup
      exact absurd hcup (by simp)

theorem popPush_perm (n : Nat) : ∀ (deck acc : List Card),
    ((popPush n deck acc).1 ++ (popPush n deck acc).2).Perm (deck ++ acc) := by
  induction n with
  | zero => intro deck acc; simp [popPush, List.perm_append_comm]
  | succ n ih =>
    intro deck acc
    cases hc : deck.getLast? with
    | none =>
      have hnil : deck = [] := List.getLast?_eq_none_iff.mp hc
      subst hnil
      simp [popPush, List.perm_append_comm]
    | some c =>
      have hsplit : deck.dropLast ++ [c] = deck := List.dropLast_append_getLast? c hc
      have hstep : popPush (n + 1) deck acc = popPush n deck.dropLast (acc ++ [c]) := by
        rw [popPush, hc]
      rw [hstep]
      refine (ih deck.dropLast (acc ++ [c])).trans ?_
      have h2 : (deck.dropLast ++ (acc ++ [c])).Perm (deck.dropLast ++ ([c] ++ acc)) :=
        List.Perm.append_left _ List.perm_append_comm
      have h3 : deck.dropLast ++ ([c] ++ acc) = (deck.dropLast ++ [c]) ++ acc :=
        (List.append_assoc _ _ _).symm
      rw [h3, hsplit] at h2
      exact h2

theorem dealColumns_ColOK (counts : List Nat) : ∀ deck : List Card,
    (∀ c ∈ deck, c.faceUp = false) →
    ∀ col ∈ (dealColumns counts deck).1, ColOK col := by
  induction counts with
  | nil => intro deck _ col hcol; simp [dealColumns] at hcol
  | cons n rest ih =>
    intro deck hdown col hcol
    simp only [dealColumns] at hcol
    have hsub : ∀ x, x ∈ (popPush n deck []).1 ∨ x ∈ (popPush n deck []).2 → x ∈ deck := by
      intro x hx
      have hperm := popPush_perm n deck []
      have : x ∈ (popPush n deck []).1 ++ (popPush n deck []).2 :=
        List.mem_append.mpr hx
      simpa using hperm.mem_iff.mp this
    rcases List.mem_cons.mp hcol with h | h
    · subst h
      exact ColOK_flipLast_of_down _ (fun c hc => hdown c (hsub c (Or.inr hc)))
    · exact ih (popPush n deck []).1 (fun c hc => hdown c (hsub c (Or.inl hc))) col h

theorem faceInv_deal (deck : List Card) (hdown : ∀ c ∈ deck, c.faceUp = false) :
    FaceInv (startNewDealState deck) := by
  refine ⟨?_, ?_, ?_⟩
  · simpa [startNewDealState] using dealColumns_ColOK [1, 2, 3, 4, 5, 6, 7] deck hdown
  · simp [startNewDealState]
  · intro l hl
    simp only [startNewDealState] at hl
    simp only [List.mem_cons, List.not_mem_nil, or_false] at hl
    rcases hl with h | h | h | h <;> subst h <;> simp

/-- C8: in every reachable state (fresh deal followed by any sequence of
successful engine moves) every tableau column's face-up cards form a
contiguous suffix: whenever a card is face-up, every card above it
(later in the column list) is also face-up, so no face-down card ever
sits above a face-up one. -/
theorem reachable_faceUp_suffix (S : GameState) (hR : Reachable S) :
    ∀ col ∈ S.tableau, ColOK col := by
  have hinv : FaceInv S := by
    induction hR with
    | deal deck hperm =>
      refine faceInv_deal deck ?_
      have hall : ∀ c ∈ createDeck, c.faceUp = false := by decide
      intro c hc
      exact hall c (hperm.mem_iff.mp hc)
    | step hR hS ih =>
      obtain ⟨m, hm⟩ := hS
      have := step_preserves_faceInv m _ ih
      rw [hm] at this
      exact this
  exact hinv.1

theorem reachable_faceUp_suffix_witness :
    Reachable (startNewDealState createDeck) ∧
    (∀ col ∈ (startNewDealState createDeck).tableau, ColOK col) :=
  ⟨Reachable.deal createDeck (List.Perm.refl _),
   reachable_faceUp_suffix (startNewDealState createDeck)
     (Reachable.deal createDeck (List.Perm.refl _))⟩

/-- A column's visible top: the last card of the column, face-up. -/
def TopFaceUp (S : GameState) (c : Nat) (card : Card) : Prop :=
  (S.tableau.getD c []).getLast? = some card ∧ card.faceUp = true

/-- The card has a legal foundation move. -/
def FndLegal (S : GameState) (card : Card) : Prop := canMoveToFoundation S card ≠ -1

/-- Column `d` is a legal tableau destination for `card` moved from
column `c` (a real column other than the source). -/
def TabDest (S : GameState) (card : Card) (c d : Nat) : Prop :=
  d < S.tableau.length ∧ d ≠ c ∧ canMoveToTableau S [card] d = true

/-- Column `c` offers a tier-1 hint per the specification: a
tableau-sourced move (to foundation or tableau) whose execution would
reveal a face-down card. -/
def Tier1At (S : GameState) (c : Nat) : Prop :=
  ∃ card, TopFaceUp S c card ∧ willTableauMoveFlip S c 1 = true ∧
    (FndLegal S card ∨ ∃ d, TabDest S card c d)

/-- Column `c` offers a tier-2 hint: a non-revealing top-to-foundation
move. -/
def Tier2At (S : GameState) (c : Nat) : Prop :=
  ∃ card, TopFaceUp S c card ∧ willTableauMoveFlip S c 1 = false ∧ FndLegal S card

/-- There is a tier-3 hint: the waste top has a legal tableau
destination. -/
def Tier3 (S : GameState) : Prop :=
  ∃ card, S.waste.getLast? = some card ∧
    ∃ d, d < S.tableau.length ∧ canMoveToTableau S [card] d = true

/-- Column `c` offers a tier-4 hint: a non-revealing top-to-tableau
move. -/
def Tier4At (S : GameState) (c : Nat) : Prop :=
  ∃ card, TopFaceUp S c card ∧ willTableauMoveFlip S c 1 = false ∧ ∃ d, TabDest S card c d

/-- Some column (scanned left to right by the engine) offers a hint of
the given tier. -/
def TierNonempty (S : GameState) : Nat → Prop
  | 1 => ∃ c, c < S.tableau.length ∧ Tier1At S c
  | 2 => ∃ c, c < S.tableau.length ∧ Tier2At S c
  | 3 => Tier3 S
  | 4 => ∃ c, c < S.tableau.length ∧ Tier4At S c
  | _ => False

/-- The priority tier a hint move belongs to: revealing tableau moves
are tier 1, non-revealing foundation moves tier 2, waste moves tier 3,
other tableau moves tier 4. -/
def hintTier : HMove → Nat
  | .tabToFnd _ _ _ true => 1
  | .tabToFnd _ _ _ false => 2
  | .wasteToTab _ _ => 3
  | .tabToTab _ _ _ true => 1
  | .tabToTab _ _ _ false => 4

/-- Source column of a tableau-sourced hint move. -/
def hintSourceCol : HMove → Option Nat
  | .tabToFnd c _ _ _ => some c
  | .tabToTab c _ _ _ => some c
  | .wasteToTab _ _ => none

/-- The claim's description of a well-formed hint move: its source is
the face-up top of the named pile, the move is legal, its reveal flag
is the read-only `willTableauMoveFlip` value, and the destination (for
tableau and waste moves) is the first legal column of lowest index,
excluding the source column. -/
def GoodHint (S : GameState) : HMove → Prop
  | .tabToFnd c cid fi wf =>
    ∃ card, TopFaceUp S c card ∧ cid = card.cid ∧
      fi = canMoveToFoundation S card ∧ fi ≠ -1 ∧ wf = willTableauMoveFlip S c 1
  | .tabToTab c cid d wf =>
    ∃ card, TopFaceUp S c card ∧ cid = card.cid ∧ d < S.tableau.length ∧ d ≠ c ∧
      canMoveToTableau S [card] d = true ∧ wf = willTableauMoveFlip S c 1 ∧
      (∀ d', d' < d → d' ≠ c → canMoveToTableau S [card] d' = false)
  | .wasteToTab cid d =>
    ∃ card, S.waste.getLast? = some card ∧ cid = card.cid ∧ d < S.tableau.length ∧
      canMoveToTableau S [card] d = true ∧
      (∀ d', d' < d → canMoveToTableau S [card] d' = false)

theorem find?_range'_spec (p : Nat → Bool) (n : Nat) : ∀ (a d : Nat),
    (List.range' a n).find? p = some d →
    a ≤ d ∧ d < a + n ∧ p d = true ∧ ∀ d', a ≤ d' → d' < d → p d' = false := by
  induction n with
  | zero => intro a d h; simp at h
  | succ n ih =>
    intro a d h
    rw [List.range'_succ a n 1] at h
    rw [List.find?_cons] at h
    cases hpa : p a with
    | true =>
      rw [hpa] at h
      simp only [Option.some.injEq] at h
      subst h
      exact ⟨Nat.le_refl _, by omega, hpa, fun d' h1 h2 => by omega⟩
    | false =>
      rw [hpa] at h
      obtain ⟨h1, h2, h3, h4⟩ := ih (a + 1) d h
      refine ⟨by omega, by omega, h3, ?_⟩
      intro d' hle hlt
      rcases Nat.eq_or_lt_of_le hle with heq | hlt2
      · rw [← heq]; exact hpa
      · exact h4 d' hlt2 hlt

theorem find?_range_spec (p : Nat → Bool) (n d : Nat)
    (h : (List.range n).find? p = some d) :
    d < n ∧ p d = true ∧ ∀ d', d' < d → p d' = false := by
  rw [List.range_eq_range'] at h
  obtain ⟨_, h2, h3, h4⟩ := find?_range'_spec p n 0 d h
  exact ⟨by omega, h3, fun d' hlt => h4 d' (Nat.zero_le _) hlt⟩

theorem head?_flatMap_range' {β : Type} (f : Nat → List β) (n : Nat) : ∀ (a : Nat) (m : β),
    ((List.range' a n).flatMap f).head? = some m →
    ∃ c, a ≤ c ∧ c < a + n ∧ (∀ c', a ≤ c' → c' < c → f c' = []) ∧
      (f c).head? = some m := by
  induction n with
  | zero => intro a m h; simp at h
  | succ n ih =>
    intro a m h
    rw [List.range'_succ a n 1, List.flatMap_cons, List.head?_append] at h
    cases hfa : (f a).head? with
    | some y =>
      rw [hfa] at h
      simp only [Option.or_some, Option.some.injEq] at h
      subst h
      exact ⟨a, Nat.le_refl _, by omega, fun c' h1 h2 => by omega, hfa⟩
    | none =>
      rw [hfa] at h
      simp only [Option.none_or] at h
      obtain ⟨c, h1, h2, h3, h4⟩ := ih (a + 1) m h
      refine ⟨c, by omega, by omega, ?_, h4⟩
      intro c' hle hlt
      rcases Nat.eq_or_lt_of_le hle with heq | hlt2
      · rw [← heq]
        cases hfc : f a with
        | nil => rfl
        | cons z zs => rw [hfc] at hfa; simp at hfa
      · exact h3 c' hlt2 hlt

theorem head?_flatMap_range {β : Type} (f : Nat → List β) (n : Nat) (m : β)
    (h : ((List.range n).flatMap f).head? = some m) :
    ∃ c, c < n ∧ (∀ c', c' < c → f c' = []) ∧ (f c).head? = some m := by
  rw [List.range_eq_range'] at h
  obtain ⟨c, _, h2, h3, h4⟩ := head?_flatMap_range' f n 0 m h
  exact ⟨c, by omega, fun c' hlt => h3 c' (Nat.zero_le _) hlt, h4⟩

theorem flatMap_range_eq_nil {β : Type} (f : Nat → List β) (n : Nat) :
    (List.range n).flatMap f = [] ↔ ∀ c, c < n → f c = [] := by
  rw [List.flatMap_eq_nil_iff]
  constructor
  · intro h c hc
    exact h c (List.mem_range.mpr hc)
  · intro h a ha
    exact h a (List.mem_range.mp ha)

theorem columnHintMoves_of_none (S : GameState) (c : Nat)
    (h : (S.tableau.getD c []).getLast? = none) :
    columnHintMoves S c = ([], [], []) := by
  unfold columnHintMoves
  dsimp only
  rw [h]

theorem columnHintMoves_of_facedown (S : GameState) (c : Nat) (card : Card)
    (h : (S.tableau.getD c []).getLast? = some card) (hf : card.faceUp = false) :
    columnHintMoves S c = ([], [], []) := by
  unfold columnHintMoves
  dsimp only
  rw [h]
  simp [hf]

theorem findDest_eq_none_iff (S : GameState) (card : Card) (c : Nat) :
    ((List.range S.tableau.length).find?
      (fun t => t != c && canMoveToTableau S [card] t)) = none ↔
    ¬ ∃ d, TabDest S card c d := by
  rw [List.find?_eq_none]
  constructor
  · rintro h ⟨d, hd1, hd2, hd3⟩
    have hnd := h d (List.mem_range.mpr hd1)
    simp only [Bool.and_eq_true, bne_iff_ne, ne_eq, not_and] at hnd
    exact absurd hd3 (hnd hd2)
  · intro h d hd hp
    simp only [Bool.and_eq_true, bne_iff_ne, ne_eq] at hp
    exact h ⟨d, List.mem_range.mp hd, hp.1, hp.2⟩

theorem columnHintMoves_of_faceup (S : GameState) (c : Nat) (card : Card)
    (h : (S.tableau.getD c []).getLast? = some card) (hf : card.faceUp = true) :
    columnHintMoves S c =
      (if willTableauMoveFlip S c 1 then
        ((if canMoveToFoundation S card != -1 then
            [HMove.tabToFnd c card.cid (canMoveToFoundation S card)
              (willTableauMoveFlip S c 1)]
          else []) ++
         (match (List.range S.tableau.length).find?
             (fun targetCol => targetCol != c && canMoveToTableau S [card] targetCol) with
          | some targetCol =>
            [HMove.tabToTab c card.cid targetCol (willTableauMoveFlip S c 1)]
          | none => []), [], [])
      else ([],
        (if canMoveToFoundation S card != -1 then
          [HMove.tabToFnd c card.cid (canMoveToFoundation S card)
            (willTableauMoveFlip S c 1)]
         else []),
        (match (List.range S.tableau.length).find?
            (fun targetCol => targetCol != c && canMoveToTableau S [card] targetCol) with
         | some targetCol =>
           [HMove.tabToTab c card.cid targetCol (willTableauMoveFlip S c 1)]
         | none => []))) := by
  unfold columnHintMoves
  dsimp only
  rw [h]
  simp [hf]

theorem columnHint1_ne_nil_iff (S : GameState) (c : Nat) :
    (columnHintMoves S c).1 ≠ [] ↔ Tier1At S c := by
  cases hlast : (S.tableau.getD c []).getLast? with
  | none =>
    rw [columnHintMoves_of_none S c hlast]
    simp only [ne_eq, not_true_eq_false, false_iff]
    rintro ⟨card, ⟨hcc, _⟩, _⟩
    rw [hlast] at hcc
    exact Option.noConfusion hcc
  | some card =>
    rcases (Bool.eq_false_or_eq_true card.faceUp).symm with hf | hf
    · rw [columnHintMoves_of_facedown S c card hlast hf]
      simp only [ne_eq, not_true_eq_false, false_iff]
      rintro ⟨card', ⟨hcc, hup⟩, _⟩
      rw [hlast] at hcc
      cases hcc
      rw [hf] at hup
      exact Bool.noConfusion hup
    · rw [columnHintMoves_of_faceup S c card hlast hf]
      rcases (Bool.eq_false_or_eq_true (willTableauMoveFlip S c 1)).symm with hwf | hwf
      · simp only [hwf, Bool.false_eq_true, if_false, ne_eq, not_true_eq_false, false_iff]
        rintro ⟨card', ⟨hcc, _⟩, hwf', _⟩
        rw [hlast] at hcc
        cases hcc
        rw [hwf] at hwf'
        exact Bool.noConfusion hwf'
      · simp only [hwf, if_true]
        constructor
        · intro hne
          refine ⟨card, ⟨hlast, hf⟩, hwf, ?_⟩
          by_cases hfi : canMoveToFoundation S card != -1
          · exact Or.inl (by simpa [bne_iff_ne] using hfi)
          · cases hfind : (List.range S.tableau.length).find?
                (fun targetCol => targetCol != c && canMoveToTableau S [card] targetCol) with
            | none =>
              exfalso
              apply hne
              simp [hfi, hfind]
            | some d =>
              obtain ⟨hd1, hd2, _⟩ := find?_range_spec _ _ _ hfind
              simp only [Bool.and_eq_true, bne_iff_ne, ne_eq] at hd2
              exact Or.inr ⟨d, hd1, hd2.1, hd2.2⟩
        · rintro ⟨card', ⟨hcc, _⟩, _, hdisj⟩
          rw [hlast] at hcc
          cases hcc
          rcases hdisj with hfnd | hdest
          · have hfi : (canMoveToFoundation S card != -1) = true := by
              simpa [bne_iff_ne] using hfnd
            simp [hfi]
          · cases hfind : (List.range S.tableau.length).find?
                (fun targetCol => targetCol != c && canMoveToTableau S [card] targetCol) with
            | none =>
              exact absurd hdest ((findDest_eq_none_iff S card c).mp hfind)
            | some d =>
              by_cases hfi : canMoveToFoundation S card != -1 <;> simp [hfi, hfind]

theorem columnHint2_ne_nil_iff (S : GameState) (c : Nat) :
    (columnHintMoves S c).2.1 ≠ [] ↔ Tier2At S c := by
  cases hlast : (S.tableau.getD c []).getLast? with
  | none =>
    rw [columnHintMoves_of_none S c hlast]
    simp only [ne_eq, not_true_eq_false, false_iff]
    rintro ⟨card, ⟨hcc, _⟩, _⟩
    rw [hlast] at hcc
    exact Option.noConfusion hcc
  | some card =>
    rcases (Bool.eq_false_or_eq_true card.faceUp).symm with hf | hf
    · rw [columnHintMoves_of_facedown S c card hlast hf]
      simp only [ne_eq, not_true_eq_false, false_iff]
      rintro ⟨card', ⟨hcc, hup⟩, _⟩
      rw [hlast] at hcc
      cases hcc
      rw [hf] at hup
      exact Bool.noConfusion hup
    · rw [columnHintMoves_of_faceup S c card hlast hf]
      rcases (Bool.eq_false_or_eq_true (willTableauMoveFlip S c 1)).symm with hwf | hwf
      · simp only [hwf, Bool.false_eq_true, if_false]
        constructor
        · intro hne
          by_cases hfi : canMoveToFoundation S card != -1
          · exact ⟨card, ⟨hlast, hf⟩, hwf, by simpa [bne_iff_ne] using hfi⟩
          · exact absurd (by simp [hfi]) hne
        · rintro ⟨card', ⟨hcc, _⟩, _, hfnd⟩
          rw [hlast] at hcc
          cases hcc
          have hfi : (canMoveToFoundation S card != -1) = true := by
            simpa [bne_iff_ne] using hfnd
          simp [hfi]
      · simp only [hwf, if_true, ne_eq, not_true_eq_false, false_iff]
        rintro ⟨card', ⟨hcc, _⟩, hwf', _⟩
        rw [hlast] at hcc
        cases hcc
        rw [hwf] at hwf'
        exact Bool.noConfusion hwf'

theorem columnHint4_ne_nil_iff (S : GameState) (c : Nat) :
    (columnHintMoves S c).2.2 ≠ [] ↔ Tier4At S c := by
  cases hlast : (S.tableau.getD c []).getLast? with
  | none =>
    rw [columnHintMoves_of_none S c hlast]
    simp only [ne_eq, not_true_eq_false, false_iff]
    rintro ⟨card, ⟨hcc, _⟩, _⟩
    rw [hlast] at hcc
    exact Option.noConfusion hcc
  | some card =>
    rcases (Bool.eq_false_or_eq_true card.faceUp).symm with hf | hf
    · rw [columnHintMoves_of_facedown S c card hlast hf]
      simp only [ne_eq, not_true_eq_false, false_iff]
      rintro ⟨card', ⟨hcc, hup⟩, _⟩
      rw [hlast] at hcc
      cases hcc
      rw [hf] at hup
      exact Bool.noConfusion hup
    · rw [columnHintMoves_of_faceup S c card hlast hf]
      rcases (Bool.eq_false_or_eq_true (willTableauMoveFlip S c 1)).symm with hwf | hwf
      · simp only [hwf, Bool.false_eq_true, if_false]
        constructor
        · intro hne
          cases hfind : (List.range S.tableau.length).find?
              (fun targetCol => targetCol != c && canMoveToTableau S [card] targetCol) with
          | none => exact absurd (by simp [hfind]) hne
          | some d =>
            obtain ⟨hd1, hd2, _⟩ := find?_range_spec _ _ _ hfind
            simp only [Bool.and_eq_true, bne_iff_ne, ne_eq] at hd2
            exact ⟨card, ⟨hlast, hf⟩, hwf, d, hd1, hd2.1, hd2.2⟩
        · rintro ⟨card', ⟨hcc, _⟩, _, hdest⟩
          rw [hlast] at hcc
          cases hcc
          cases hfind : (List.range S.tableau.length).find?
              (fun targetCol => targetCol != c && canMoveToTableau S [card] targetCol) with
          | none =>
            exact absurd hdest ((findDest_eq_none_iff S card c).mp hfind)
          | some d => simp [hfind]
      · simp only [hwf, if_true, ne_eq, not_true_eq_false, false_iff]
        rintro ⟨card', ⟨hcc, _⟩, hwf', _⟩
        rw [hlast] at hcc
        cases hcc
        rw [hwf] at hwf'
        exact Bool.noConfusion hwf'

theorem wasteHint_ne_nil_iff (S : GameState) :
    wasteHintMoves S ≠ [] ↔ Tier3 S := by
  unfold wasteHintMoves
  cases hlast : S.waste.getLast? with
  | none =>
    simp only [ne_eq, not_true_eq_false, false_iff]
    rintro ⟨card, hcc, _⟩
    rw [hlast] at hcc
    exact Option.noConfusion hcc
  | some card =>
    constructor
    · intro hne
      cases hfind : (List.range S.tableau.length).find?
          (fun colIndex => canMoveToTableau S [card] colIndex) with
      | none => exact absurd (by simp [hfind]) hne
      | some d =>
        obtain ⟨hd1, hd2, _⟩ := find?_range_spec _ _ _ hfind
        exact ⟨card, hlast, d, hd1, hd2⟩
    · rintro ⟨card', hcc, d, hd1, hd2⟩
      rw [hlast] at hcc
      cases hcc
      cases hfind : (List.range S.tableau.length).find?
          (fun colIndex => canMoveToTableau S [card] colIndex) with
      | none =>
        rw [List.find?_eq_none] at hfind
        exact absurd hd2 (hfind d (List.mem_range.mpr hd1))
      | some e => simp [hfind]

theorem columnHint1_head_good (S : GameState) (c : Nat) (m : HMove)
    (h : ((columnHintMoves S c).1).head? = some m) :
    GoodHint S m ∧ hintTier m = 1 ∧ hintSourceCol m = some c := by
  cases hlast : (S.tableau.getD c []).getLast? with
  | none => rw [columnHintMoves_of_none S c hlast] at h; simp at h
  | some card =>
    rcases (Bool.eq_false_or_eq_true card.faceUp).symm with hf | hf
    · rw [columnHintMoves_of_facedown S c card hlast hf] at h; simp at h
    · rw [columnHintMoves_of_faceup S c card hlast hf] at h
      rcases (Bool.eq_false_or_eq_true (willTableauMoveFlip S c 1)).symm with hwf | hwf
      · rw [hwf] at h; simp at h
      · rw [hwf] at h
        simp only [if_true] at h
        by_cases hfi : (canMoveToFoundation S card != -1) = true
        · rw [if_pos hfi] at h
          simp only [List.cons_append, List.head?_cons, Option.some.injEq] at h
          subst h
          exact ⟨⟨card, ⟨hlast, hf⟩, rfl, rfl, by simpa [bne_iff_ne] using hfi, hwf.symm⟩,
                 rfl, rfl⟩
        · rw [if_neg hfi] at h
          simp only [List.nil_append] at h
          cases hfind : (List.range S.tableau.length).find?
              (fun targetCol => targetCol != c && canMoveToTableau S [card] targetCol) with
          | none => rw [hfind] at h; simp at h
          | some d =>
            rw [hfind] at h
            simp only [List.head?_cons, Option.some.injEq] at h
            subst h
            obtain ⟨hd1, hd2, hd3⟩ := find?_range_spec _ _ _ hfind
            simp only [Bool.and_eq_true, bne_iff_ne, ne_eq] at hd2
            refine ⟨⟨card, ⟨hlast, hf⟩, rfl, hd1, hd2.1, hd2.2, hwf.symm, ?_⟩, rfl, rfl⟩
            intro d' hlt hne
            have := hd3 d' hlt
            have hbne : (d' != c) = true := by simpa [bne_iff_ne] using hne
            rw [hbne] at this
            simpa using this

theorem columnHint2_head_good (S : GameState) (c : Nat) (m : HMove)
    (h : ((columnHintMoves S c).2.1).head? = some m) :
    GoodHint S m ∧ hintTier m = 2 ∧ hintSourceCol m = some c := by
  cases hlast : (S.tableau.getD c []).getLast? with
  | none => rw [columnHintMoves_of_none S c hlast] at h; simp at h
  | some card =>
    rcases (Bool.eq_false_or_eq_true card.faceUp).symm with hf | hf
    · rw [columnHintMoves_of_facedown S c card hlast hf] at h; simp at h
    · rw [columnHintMoves_of_faceup S c card hlast hf] at h
      rcases (Bool.eq_false_or_eq_true (willTableauMoveFlip S c 1)).symm with hwf | hwf
      · rw [hwf] at h
        simp only [Bool.false_eq_true, if_false] at h
        by_cases hfi : (canMoveToFoundation S card != -1) = true
        · rw [if_pos hfi] at h
          simp only [List.head?_cons, Option.some.injEq] at h
          subst h
          exact ⟨⟨card, ⟨hlast, hf⟩, rfl, rfl, by simpa [bne_iff_ne] using hfi, hwf.symm⟩,
                 rfl, rfl⟩
        · rw [if_neg hfi] at h; simp at h
      · rw [hwf] at h; simp at h

theorem columnHint4_head_good (S : GameState) (c : Nat) (m : HMove)
    (h : ((columnHintMoves S c).2.2).head? = some m) :
    GoodHint S m ∧ hintTier m = 4 ∧ hintSourceCol m = some c := by
  cases hlast : (S.tableau.getD c []).getLast? with
  | none => rw [columnHintMoves_of_none S c hlast] at h; simp at h
  | some card =>
    rcases (Bool.eq_false_or_eq_true card.faceUp).symm with hf | hf
    · rw [columnHintMoves_of_facedown S c card hlast hf] at h; simp at h
    · rw [columnHintMoves_of_faceup S c card hlast hf] at h
      rcases (Bool.eq_false_or_eq_true (willTableauMoveFlip S c 1)).symm with hwf | hwf
      · rw [hwf] at h
        simp only [Bool.false_eq_true, if_false] at h
        cases hfind : (List.range S.tableau.length).find?
            (fun targetCol => targetCol != c && canMoveToTableau S [card] targetCol) with
        | none => rw [hfind] at h; simp at h
        | some d =>
          rw [hfind] at h
          simp only [List.head?_cons, Option.some.injEq] at h
          subst h
          obtain ⟨hd1, hd2, hd3⟩ := find?_range_spec _ _ _ hfind
          simp only [Bool.and_eq_true, bne_iff_ne, ne_eq] at hd2
          refine ⟨⟨card, ⟨hlast, hf⟩, rfl, hd1, hd2.1, hd2.2, hwf.symm, ?_⟩, rfl, rfl⟩
          intro d' hlt hne
          have := hd3 d' hlt
          have hbne : (d' != c) = true := by simpa [bne_iff_ne] using hne
          rw [hbne] at this
          simpa using this
      · rw [hwf] at h; simp at h

theorem wasteHint_head_good (S : GameState) (m : HMove)
    (h : (wasteHintMoves S).head? = some m) :
    GoodHint S m ∧ hintTier m = 3 ∧ hintSourceCol m = none := by
  unfold wasteHintMoves at h
  cases hlast : S.waste.getLast? with
  | none => rw [hlast] at h; simp at h
  | some card =>
    rw [hlast] at h
    dsimp only at h
    cases hfind : (List.range S.tableau.length).find?
        (fun colIndex => canMoveToTableau S [card] colIndex) with
    | none => rw [hfind] at h; simp at h
    | some d =>
      rw [hfind] at h
      simp only [List.head?_cons, Option.some.injEq] at h
      subst h
      obtain ⟨hd1, hd2, hd3⟩ := find?_range_spec _ _ _ hfind
      exact ⟨⟨card, hlast, rfl, hd1, hd2, hd3⟩, rfl, rfl⟩

/-- C6: the hint computation is a pure function of the state (by
construction it returns only a move description, so no pile, face-up
flag, score or move counter can change); it returns no hint exactly
when no tier has a legal candidate; and any returned hint is a
well-formed move (`GoodHint`: its source is the face-up top of its
pile, its reveal flag is the read-only `willTableauMoveFlip` value, and
its tableau destination is the first legal column of lowest index
excluding the source) taken from the highest-priority non-empty tier,
with source columns scanned left to right within that tier. -/
theorem computeHintMove_spec (S : GameState) :
    (computeHintMove S = none ↔
      ¬ TierNonempty S 1 ∧ ¬ TierNonempty S 2 ∧ ¬ TierNonempty S 3 ∧ ¬ TierNonempty S 4) ∧
    (∀ m, computeHintMove S = some m →
      GoodHint S m ∧
      (∀ k, 1 ≤ k → k < hintTier m → ¬ TierNonempty S k) ∧
      (∀ c, hintSourceCol m = some c → ∀ c', c' < c →
        (hintTier m = 1 → ¬ Tier1At S c') ∧
        (hintTier m = 2 → ¬ Tier2At S c') ∧
        (hintTier m = 4 → ¬ Tier4At S c'))) := by
  have hdef : computeHintMove S =
      ((((List.range S.tableau.length).flatMap fun c => (columnHintMoves S c).1).head?) <|>
       ((((List.range S.tableau.length).flatMap fun c => (columnHintMoves S c).2.1).head?) <|>
        (((wasteHintMoves S).head?) <|>
         (((List.range S.tableau.length).flatMap fun c => (columnHintMoves S c).2.2).head?)))) :=
    rfl
  have h1nil : (((List.range S.tableau.length).flatMap fun c => (columnHintMoves S c).1) = [])
      ↔ ¬ TierNonempty S 1 := by
    rw [flatMap_range_eq_nil]
    simp only [TierNonempty]
    constructor
    · rintro h ⟨c, hc, ht⟩
      exact (columnHint1_ne_nil_iff S c).mpr ht (h c hc)
    · intro h c hc
      by_contra hne
      exact h ⟨c, hc, (columnHint1_ne_nil_iff S c).mp hne⟩
  have h2nil : (((List.range S.tableau.length).flatMap fun c => (columnHintMoves S c).2.1) = [])
      ↔ ¬ TierNonempty S 2 := by
    rw [flatMap_range_eq_nil]
    simp only [TierNonempty]
    constructor
    · rintro h ⟨c, hc, ht⟩
      exact (columnHint2_ne_nil_iff S c).mpr ht (h c hc)
    · intro h c hc
      by_contra hne
      exact h ⟨c, hc, (columnHint2_ne_nil_iff S c).mp hne⟩
  have h4nil : (((List.range S.tableau.length).flatMap fun c => (columnHintMoves S c).2.2) = [])
      ↔ ¬ TierNonempty S 4 := by
    rw [flatMap_range_eq_nil]
    simp only [TierNonempty]
    constructor
    · rintro h ⟨c, hc, ht⟩
      exact (columnHint4_ne_nil_iff S c).mpr ht (h c hc)
    · intro h c hc
      by_contra hne
      exact h ⟨c, hc, (columnHint4_ne_nil_iff S c).mp hne⟩
  have h3nil : (wasteHintMoves S = []) ↔ ¬ TierNonempty S 3 := by
    simp only [TierNonempty]
    constructor
    · intro h ht
      exact (wasteHint_ne_nil_iff S).mpr ht h
    · intro h
      by_contra hne
      exact h ((wasteHint_ne_nil_iff S).mp hne)
  constructor
  · rw [hdef, Option.orElse_eq_none, Option.orElse_eq_none, Option.orElse_eq_none,
        List.head?_eq_none_iff, List.head?_eq_none_iff, List.head?_eq_none_iff,
        List.head?_eq_none_iff, h1nil, h2nil, h3nil, h4nil]
  · intro m hm
    rw [hdef] at hm
    cases hA : (((List.range S.tableau.length).flatMap
        fun c => (columnHintMoves S c).1).head?) with
    | some m1 =>
      rw [hA, Option.some_orElse] at hm
      have hmeq := Option.some.inj hm
      subst hmeq
      obtain ⟨c, hc, hprev, hhead⟩ := head?_flatMap_range _ _ _ hA
      obtain ⟨hgood, htier, hsrc⟩ := columnHint1_head_good S c m1 hhead
      refine ⟨hgood, ?_, ?_⟩
      · intro k hk1 hk2
        rw [htier] at hk2
        omega
      · intro c0 hc0 c' hlt
        rw [hsrc] at hc0
        have hceq : c = c0 := Option.some.inj hc0
        subst hceq
        refine ⟨fun _ ht => ?_, fun hcontra => ?_, fun hcontra => ?_⟩
        · exact (columnHint1_ne_nil_iff S c').mpr ht (hprev c' hlt)
        · rw [htier] at hcontra; simp at hcontra
        · rw [htier] at hcontra; simp at hcontra
    | none =>
      have hT1 : ¬ TierNonempty S 1 := h1nil.mp (List.head?_eq_none_iff.mp hA)
      rw [hA, Option.none_orElse] at hm
      cases hB : (((List.range S.tableau.length).flatMap
          fun c => (columnHintMoves S c).2.1).head?) with
      | some m2 =>
        rw [hB, Option.some_orElse] at hm
        have hmeq := Option.some.inj hm
        subst hmeq
        obtain ⟨c, hc, hprev, hhead⟩ := head?_flatMap_range _ _ _ hB
        obtain ⟨hgood, htier, hsrc⟩ := columnHint2_head_good S c m2 hhead
        refine ⟨hgood, ?_, ?_⟩
        · intro k hk1 hk2
          rw [htier] at hk2
          interval_cases k
          exact hT1
        · intro c0 hc0 c' hlt
          rw [hsrc] at hc0
          have hceq : c = c0 := Option.some.inj hc0
          subst hceq
          refine ⟨fun hcontra => ?_, fun _ ht => ?_, fun hcontra => ?_⟩
          · rw [htier] at hcontra; simp at hcontra
          · exact (columnHint2_ne_nil_iff S c').mpr ht (hprev c' hlt)
          · rw [htier] at hcontra; simp at hcontra
      | none =>
        have hT2 : ¬ TierNonempty S 2 := h2nil.mp (List.head?_eq_none_iff.mp hB)
        rw [hB, Option.none_orElse] at hm
        cases hC : (wasteHintMoves S).head? with
        | some m3 =>
          rw [hC, Option.some_orElse] at hm
          have hmeq := Option.some.inj hm
          subst hmeq
          obtain ⟨hgood, htier, hsrc⟩ := wasteHint_head_good S m3 hC
          refine ⟨hgood, ?_, ?_⟩
          · intro k hk1 hk2
            rw [htier] at hk2
            interval_cases k
            · exact hT1
            · exact hT2
          · intro c0 hc0
            rw [hsrc] at hc0
            exact Option.noConfusion hc0
        | none =>
          have hT3 : ¬ TierNonempty S 3 := h3nil.mp (List.head?_eq_none_iff.mp hC)
          rw [hC, Option.none_orElse] at hm
          obtain ⟨c, hc, hprev, hhead⟩ := head?_flatMap_range _ _ _ hm
          obtain ⟨hgood, htier, hsrc⟩ := columnHint4_head_good S c m hhead
          refine ⟨hgood, ?_, ?_⟩
          · intro k hk1 hk2
            rw [htier] at hk2
            interval_cases k
            · exact hT1
            · exact hT2
            · exact hT3
          · intro c0 hc0 c' hlt
            rw [hsrc] at hc0
            have hceq : c = c0 := Option.some.inj hc0
            subst hceq
            refine ⟨fun hcontra => ?_, fun hcontra => ?_, fun _ ht => ?_⟩
            · rw [htier] at hcontra; simp at hcontra
            · rw [htier] at hcontra; simp at hcontra
            · exact (columnHint4_ne_nil_iff S c').mpr ht (hprev c' hlt)

/-- Witness state for C6: the waste holds a face-up king of spades, so
the only hint is the tier-3 waste-to-tableau move onto empty column 0. -/
def hintDemo : GameState :=
  { demoState with waste := [{ suit := 3, rank := 13, faceUp := true }] }

theorem computeHintMove_spec_witness :
    computeHintMove hintDemo = some (.wasteToTab (3, 13) 0) ∧
    GoodHint hintDemo (.wasteToTab (3, 13) 0) ∧
    ¬ TierNonempty hintDemo 1 ∧ ¬ TierNonempty hintDemo 2 :=
  ⟨by decide,
   ((computeHintMove_spec hintDemo).2 (.wasteToTab (3, 13) 0) (by decide)).1,
   ((computeHintMove_spec hintDemo).2 (.wasteToTab (3, 13) 0) (by decide)).2.1 1
     (by decide) (by decide),
   ((computeHintMove_spec hintDemo).2 (.wasteToTab (3, 13) 0) (by decide)).2.1 2
     (by decide) (by decide)⟩

end Klondike
